import Mathlib

/-!
Shallow embedding of the carousel test server (src/src/server.ts).

The server has three HTTP stages (content generation, first image, remaining
images), a placeholder templater based on JavaScript global string
replacement, an image-instruction guard, and a regex-based slide parser
(parseSlideContent).  All string processing is modelled on lists of
characters, mirroring the JavaScript semantics of the concrete regular
expressions and String methods used by the source (leftmost match, greedy
and lazy quantifiers with backtracking, global non-rescanning replacement).
External effects (the generative API, the filesystem and the clock) are
modelled as explicit parameters, so the handlers become pure functions.
-/

namespace Carousel

/-- Whitespace class used by JavaScript regular expressions and trim for the
ASCII range (space, tab, newline, carriage return, vertical tab, form feed). -/
def isSpc (c : Char) : Bool :=
  c = ' ' || c = '\t' || c = '\n' || c = '\r' || c = '\x0b' || c = '\x0c'

/-- Decimal digit class, JavaScript regex token for digits. -/
def isDigitC (c : Char) : Bool :=
  '0' ≤ c && c ≤ '9'

/-- JavaScript String.prototype.trim on a character list: drop whitespace on
both ends. -/
def jsTrimL (cs : List Char) : List Char :=
  ((cs.dropWhile isSpc).reverse.dropWhile isSpc).reverse

/-- JavaScript String.prototype.trim. -/
def jsTrim (s : String) : String :=
  ⟨jsTrimL s.data⟩

/-- Does cs start with pat (exact character equality)? -/
def startsWithL : List Char → List Char → Bool
  | [], _ => true
  | _ :: _, [] => false
  | p :: ps, c :: cs => p = c && startsWithL ps cs

/-- Does pat occur as a contiguous substring of cs (exact equality)?  This is
the model of JavaScript String.prototype.includes. -/
def containsL (pat : List Char) : List Char → Bool
  | [] => startsWithL pat []
  | c :: cs => startsWithL pat (c :: cs) || containsL pat cs

/-- Expansion of a JavaScript replacement string at one match site
(GetSubstitution, specialised to the repository's group-free literal
patterns): a doubled dollar yields one dollar sign, dollar-ampersand the
matched text, dollar before a backquote the part of the original subject
preceding the match, dollar before a straight quote the part following it;
any other dollar — including digit and angle-bracket forms, which refer to
capture groups the patterns do not have — stays literal. -/
def expandRep (matched before after : List Char) : List Char → List Char
  | [] => []
  | [c] => [c]
  | c :: d :: r =>
    if c = '$' then
      if d = '$' then '$' :: expandRep matched before after r
      else if d = '&' then matched ++ expandRep matched before after r
      else if d = Char.ofNat 96 then before ++ expandRep matched before after r
      else if d = Char.ofNat 39 then after ++ expandRep matched before after r
      else '$' :: expandRep matched before after (d :: r)
    else c :: expandRep matched before after (d :: r)

/-- Global replacement of the literal token pat by rep, scanning left to
right without rescanning replaced text: the model of JavaScript
`s.replace(/pat/g, rep)` for a literal group-free pattern.  At every match
the replacement string is expanded by expandRep against the original
subject: pre accumulates the consumed original text (the part before the
match) and the unscanned remainder is the part after it.  The empty pattern
does not occur in the source; it is mapped to the identity. -/
def replFuel (pat rep : List Char) : Nat → List Char → List Char → List Char
  | _, _, [] => []
  | 0, _, cs => cs
  | f + 1, pre, c :: cs' =>
    if startsWithL pat (c :: cs') then
      expandRep pat pre (List.drop (pat.length - 1) cs') rep ++
        replFuel pat rep f (pre ++ pat) (List.drop (pat.length - 1) cs')
    else
      c :: replFuel pat rep f (pre ++ [c]) cs'

/-- Global literal-pattern replacement; the fuel of replFuel is the input
length, which suffices because every step of the scan consumes at least one
character of a nonempty pattern. -/
def replaceAllL (pat rep cs : List Char) : List Char :=
  replFuel pat rep cs.length [] cs

/-- String wrapper for replaceAllL. -/
def replaceAllS (pat rep s : String) : String :=
  ⟨replaceAllL pat.data rep.data s.data⟩

/-- The two-placeholder substitution used by both image stages
(server.ts lines 138-140 and 259-261):
`prompt.replace(/\{heading\}/g, heading).replace(/\{explanation\}/g, explanation)`.
The two global replacements are applied in sequence. -/
def substituteHE (template heading explanation : String) : String :=
  replaceAllS "{explanation}" explanation (replaceAllS "{heading}" heading template)

/-- The one-placeholder substitution of the content stage (server.ts line 76):
`prompt.replace(/\{transcript\}/g, transcript)`. -/
def substituteTranscript (template transcript : String) : String :=
  replaceAllS "{transcript}" transcript template

/-- ASCII lowercasing of a character list, the model of JavaScript
toLowerCase on the ASCII prompts the server handles. -/
def lowerL (cs : List Char) : List Char :=
  cs.map Char.toLower

/-- Case-sensitive substring test on strings (String.prototype.includes). -/
def includesS (s pat : String) : Bool :=
  containsL pat.data s.data

/-- The image-instruction guard (server.ts lines 143-147 and 264-268): if the
lowercased templated prompt contains none of "generate", "create", "image",
prepend "Generate an image: ". -/
def imageGuard (p : String) : String :=
  if !containsL "generate".data (lowerL p.data)
      && !containsL "create".data (lowerL p.data)
      && !containsL "image".data (lowerL p.data) then
    "Generate an image: " ++ p
  else
    p

/-- Case-insensitive literal match at the head of the input: pat is given in
lowercase and each input character is lowercased before comparison (the i
flag of the source's regular expressions).  Returns the input after the
match. -/
def matchCI : List Char → List Char → Option (List Char)
  | [], cs => some cs
  | _ :: _, [] => none
  | p :: ps, c :: cs => if c.toLower = p then matchCI ps cs else none

/-- Case-insensitive test that pat matches at the head of the input. -/
def startsCI (pat cs : List Char) : Bool :=
  (matchCI pat cs).isSome

/-- Match the slide marker /Slide\s+(\d+)/i at the head of the input:
the word "slide" (case-insensitive), one or more whitespace characters,
one or more digits.  Returns the captured digit run and the rest. -/
def matchMarker (cs : List Char) : Option (List Char × List Char) :=
  match matchCI "slide".data cs with
  | none => none
  | some t =>
    let ws := t.takeWhile isSpc
    let t1 := t.dropWhile isSpc
    if ws.isEmpty then none
    else
      let ds := t1.takeWhile isDigitC
      let t2 := t1.dropWhile isDigitC
      if ds.isEmpty then none else some (ds, t2)

/-- Leftmost occurrence of the slide marker: the text before it, the captured
digits, and the text after it. -/
def scanSplit : List Char → Option (List Char × List Char × List Char)
  | [] => none
  | c :: cs =>
    match matchMarker (c :: cs) with
    | some (ds, rest) => some ([], ds, rest)
    | none =>
      match scanSplit cs with
      | some (pre, ds, rest) => some (c :: pre, ds, rest)
      | none => none

/-- parseInt on a run of decimal digits. -/
def toNatD (ds : List Char) : Nat :=
  ds.foldl (fun a c => 10 * a + (c.toNat - 48)) 0

/-- The model of `text.split(/Slide\s+(\d+)/gi)` followed by the indexed loop
of parseSlideContent: the first segment (before any marker) and, for each
marker in order, the captured number and the segment that follows it up to
the next marker or the end. -/
def splitSlidesAux : Nat → List Char → List Char × List (Nat × List Char)
  | 0, cs => (cs, [])
  | f + 1, cs =>
    match scanSplit cs with
    | none => (cs, [])
    | some (pre, ds, rest) =>
      let r := splitSlidesAux f rest
      (pre, (toNatD ds, r.1) :: r.2)

/-- The split of the input at slide markers; the fuel of splitSlidesAux is
the input length, which suffices because every marker consumes at least one
character. -/
def splitSlides (cs : List Char) : List Char × List (Nat × List Char) :=
  splitSlidesAux cs.length cs

/-- Sequential global removal of a two-character pair: the model of
`s.replace(/\*\*/g, "")` and `s.replace(/__/g, "")` — left-to-right,
non-overlapping, no rescanning of already-produced text. -/
def removePairs (a b : Char) : List Char → List Char
  | [] => []
  | [x] => [x]
  | x :: y :: rest =>
    if x = a && y = b then removePairs a b rest
    else x :: removePairs a b (y :: rest)

/-- Emphasis-marker stripping used on captured headings and explanations
(server.ts lines 383 and 401): remove all "**" pairs, then all "__" pairs. -/
def stripEmphasis (cs : List Char) : List Char :=
  removePairs '_' '_' (removePairs '*' '*' cs)

/-- Is there a newline within the leading whitespace run?  Used for the
blank-line alternative (\n\s*\n) after the first newline is consumed. -/
def nlInWsRun : List Char → Bool
  | [] => false
  | c :: cs => if c = '\n' then true else if isSpc c then nlInWsRun cs else false

/-- Does /\n\s*\n/ match at the head of the input? -/
def blankLineAt : List Char → Bool
  | '\n' :: rest => nlInWsRun rest
  | _ => false

/-- The continuation of heading pattern 1, (?:\n\s*\n|Explanation:). -/
def altH1 (cs : List Char) : Bool :=
  blankLineAt cs || startsCI "explanation:".data cs

/-- Lazy [^\n]+? of heading pattern 1: consume at least one non-newline
character, stopping as soon as the continuation altH1 matches; acc is the
text consumed so far. -/
def lazyNonNlGo (acc : List Char) : List Char → Option (List Char)
  | [] => none
  | c :: rest =>
    if c = '\n' then none
    else if altH1 rest then some (acc ++ [c])
    else lazyNonNlGo (acc ++ [c]) rest

/-- Lazy [^\n]+? followed by altH1, starting with an empty capture. -/
def lazyNonNl (t : List Char) : Option (List Char) :=
  lazyNonNlGo [] t

/-- The body of heading pattern 1 after "Heading:": greedy \s* with
backtracking (longest first), then the lazy capture. -/
def h1Body : List Char → Option (List Char)
  | [] => lazyNonNl []
  | c :: rest =>
    if isSpc c then
      match h1Body rest with
      | some r => some r
      | none => lazyNonNl (c :: rest)
    else lazyNonNl (c :: rest)

/-- Heading pattern 1, /Heading:\s*([^\n]+?)(?:\n\s*\n|Explanation:)/is,
anchored at the head of the input; returns the capture. -/
def tryH1 (cs : List Char) : Option (List Char) :=
  match matchCI "heading:".data cs with
  | none => none
  | some t => h1Body t

/-- Greedy [^\n]+ of heading pattern 2: the maximal nonempty run of
non-newline characters. -/
def greedyNonNl (t : List Char) : Option (List Char) :=
  let r := t.takeWhile (fun c => !(c = '\n' : Bool))
  if r.isEmpty then none else some r

/-- The body of heading pattern 2 after "Heading:": greedy \s* with
backtracking, then the greedy non-newline capture. -/
def h2Body : List Char → Option (List Char)
  | [] => none
  | c :: rest =>
    if isSpc c then
      match h2Body rest with
      | some r => some r
      | none => greedyNonNl (c :: rest)
    else greedyNonNl (c :: rest)

/-- Heading pattern 2, /Heading:\s*([^\n]+)/i, anchored at the head. -/
def tryH2 (cs : List Char) : Option (List Char) :=
  match matchCI "heading:".data cs with
  | none => none
  | some t => h2Body t

/-- Lazy .+? (dotall) of heading pattern 3 followed by (?:\n|$): consume at
least one character, stop as soon as the next character is a newline or the
input ends. -/
def lazyAnyNlGo (acc : List Char) : List Char → Option (List Char)
  | [] => none
  | c :: rest =>
    match rest with
    | [] => some (acc ++ [c])
    | '\n' :: _ => some (acc ++ [c])
    | _ => lazyAnyNlGo (acc ++ [c]) rest

/-- The body of heading pattern 3 after "Heading:". -/
def h3Body : List Char → Option (List Char)
  | [] => none
  | c :: rest =>
    if isSpc c then
      match h3Body rest with
      | some r => some r
      | none => lazyAnyNlGo [] (c :: rest)
    else lazyAnyNlGo [] (c :: rest)

/-- Heading pattern 3, /Heading:\s*(.+?)(?:\n|$)/is, anchored at the head. -/
def tryH3 (cs : List Char) : Option (List Char) :=
  match matchCI "heading:".data cs with
  | none => none
  | some t => h3Body t

/-- Leftmost-match driver: try the anchored matcher at every position from
left to right and return the first success — the semantics of an unanchored
JavaScript regex match. -/
def findFirst (f : List Char → Option (List Char)) : List Char → Option (List Char)
  | [] => f []
  | c :: cs =>
    match f (c :: cs) with
    | some r => some r
    | none => findFirst f cs

/-- Extracting the heading of a content block (server.ts lines 371-386): the
three patterns are tried in order; the first that matches anywhere in the
block ends the loop, and the capture is trimmed and emphasis-stripped. -/
def extractHeading (content : List Char) : List Char :=
  match findFirst tryH1 content with
  | some cap => stripEmphasis (jsTrimL cap)
  | none =>
    match findFirst tryH2 content with
    | some cap => stripEmphasis (jsTrimL cap)
    | none =>
      match findFirst tryH3 content with
      | some cap => stripEmphasis (jsTrimL cap)
      | none => []

/-- Existential \s* search for a lookahead: does p hold here or after
skipping some of the leading whitespace run? -/
def skipWs (p : List Char → Bool) : List Char → Bool
  | [] => p []
  | c :: rest => p (c :: rest) || (isSpc c && skipWs p rest)

/-- Does /\n\s*Slide\s+\d+/i match at the head of the input? -/
def markerAfterNl : List Char → Bool
  | '\n' :: rest => skipWs (fun u => (matchMarker u).isSome) rest
  | _ => false

/-- The lookahead of explanation pattern 1, (?=\n\s*Slide\s+\d+|$). -/
def la1 (cs : List Char) : Bool :=
  markerAfterNl cs || cs.isEmpty

/-- Does /\n\s*\n\s*Slide/i match at the head of the input? -/
def blankThenSlide : List Char → Bool
  | '\n' :: rest =>
    skipWs (fun u =>
      match u with
      | '\n' :: v => skipWs (fun w => startsCI "slide".data w) v
      | _ => false) rest
  | _ => false

/-- The lookahead of explanation pattern 2, (?=\n\s*\n\s*Slide|$). -/
def la2 (cs : List Char) : Bool :=
  blankThenSlide cs || cs.isEmpty

/-- Lazy [\s\S]+? with a lookahead: consume at least one character (any
character), stopping as soon as the lookahead holds at the remainder. -/
def lazyAnyLkGo (la : List Char → Bool) (acc : List Char) :
    List Char → Option (List Char)
  | [] => none
  | c :: rest =>
    if la rest then some (acc ++ [c])
    else lazyAnyLkGo la (acc ++ [c]) rest

/-- Lazy any-character capture with lookahead, starting empty. -/
def lazyAnyLk (la : List Char → Bool) (t : List Char) : Option (List Char) :=
  lazyAnyLkGo la [] t

/-- The body of explanation patterns 1 and 2 after "Explanation:": greedy
\s* with backtracking, then the lazy capture with the given lookahead. -/
def eBody (la : List Char → Bool) : List Char → Option (List Char)
  | [] => lazyAnyLk la []
  | c :: rest =>
    if isSpc c then
      match eBody la rest with
      | some r => some r
      | none => lazyAnyLk la (c :: rest)
    else lazyAnyLk la (c :: rest)

/-- Explanation pattern 1, /Explanation:\s*([\s\S]+?)(?=\n\s*Slide\s+\d+|$)/i. -/
def tryE1 (cs : List Char) : Option (List Char) :=
  match matchCI "explanation:".data cs with
  | none => none
  | some t => eBody la1 t

/-- Explanation pattern 2, /Explanation:\s*([\s\S]+?)(?=\n\s*\n\s*Slide|$)/i. -/
def tryE2 (cs : List Char) : Option (List Char) :=
  match matchCI "explanation:".data cs with
  | none => none
  | some t => eBody la2 t

/-- The body of explanation pattern 3 after "Explanation:": greedy \s* with
backtracking, then greedy [\s\S]+ (the whole remainder, nonempty). -/
def e3Body : List Char → Option (List Char)
  | [] => none
  | c :: rest =>
    if isSpc c then
      match e3Body rest with
      | some r => some r
      | none => some (c :: rest)
    else some (c :: rest)

/-- Explanation pattern 3, /Explanation:\s*([\s\S]+)/i. -/
def tryE3 (cs : List Char) : Option (List Char) :=
  match matchCI "explanation:".data cs with
  | none => none
  | some t => e3Body t

/-- The model of `explanation.replace(/\n\s*\n\s*Slide.*$/is, "")`: delete
from the leftmost position where \n\s*\n\s*Slide matches to the end. -/
def removeTrailSlide : List Char → List Char
  | [] => []
  | c :: cs =>
    if blankThenSlide (c :: cs) then []
    else c :: removeTrailSlide cs

/-- Post-processing of an explanation capture (server.ts lines 399-401):
trim, delete a trailing blank-line-then-Slide run, trim again, strip
emphasis markers. -/
def procExpl (cap : List Char) : List Char :=
  stripEmphasis (jsTrimL (removeTrailSlide (jsTrimL cap)))

/-- Extracting the explanation of a content block (server.ts lines 388-404):
the three patterns are tried in order; a pattern whose processed capture is
empty does not end the loop. -/
def extractExplanation (content : List Char) : List Char :=
  let e1 :=
    match findFirst tryE1 content with
    | some cap => procExpl cap
    | none => []
  if !e1.isEmpty then e1
  else
    let e2 :=
      match findFirst tryE2 content with
      | some cap => procExpl cap
      | none => []
    if !e2.isEmpty then e2
    else
      match findFirst tryE3 content with
      | some cap => procExpl cap
      | none => []

/-- A parsed slide record (server.ts interface SlideContent). -/
structure SlideContent where
  slideNumber : Nat
  heading : String
  explanation : String
deriving DecidableEq, Repr

/-- The per-block loop of parseSlideContent: a block contributes a record
exactly when both the extracted heading and explanation are nonempty
(JavaScript truthiness of the strings). -/
def parseBlocks : List (Nat × List Char) → List SlideContent
  | [] => []
  | (n, content) :: rest =>
    let h := extractHeading content
    let e := extractExplanation content
    if !h.isEmpty && !e.isEmpty then
      ⟨n, ⟨h⟩, ⟨e⟩⟩ :: parseBlocks rest
    else parseBlocks rest

/-- parseSlideContent (server.ts lines 363-416). -/
def parseSlideContent (text : String) : List SlideContent :=
  parseBlocks (splitSlides text.data).2

/-! ### The generation stages

The three HTTP handlers are modelled as pure functions.  The external
generative API is a parameter mapping the request prompt to a response of
the @google/genai shape the handlers inspect; the filesystem write outcome
and the clock are parameters as well.  Optional fields of the response
mirror the optional chaining of the source. -/

/-- An inline data part of a response (mimeType and base64 payload, both
possibly absent). -/
structure InlineData where
  mimeType : Option String
  data : Option String
deriving DecidableEq, Repr

/-- A content part of a response candidate. -/
structure Part where
  thought : Bool
  text : Option String
  inlineData : Option InlineData
deriving DecidableEq, Repr

/-- The content of a response candidate; its parts list may be absent. -/
structure ContentBody where
  parts : Option (List Part)
deriving DecidableEq, Repr

/-- A response candidate; its content may be absent. -/
structure Candidate where
  content : Option ContentBody
deriving DecidableEq, Repr

/-- Token counts of a response, each possibly absent. -/
structure UsageMeta where
  promptTokenCount : Option Nat
  candidatesTokenCount : Option Nat
  totalTokenCount : Option Nat
deriving DecidableEq, Repr

/-- The response shape the handlers inspect.  stringified stands for
JSON.stringify of the whole response object, used as a last-resort text
extraction by the content stage. -/
structure GenResponse where
  text : Option String
  candidates : Option (List Candidate)
  usageMetadata : Option UsageMeta
  stringified : String
deriving DecidableEq, Repr

/-- Token usage reported to the client, absent counts defaulting to zero. -/
structure TokenUsage where
  input : Nat
  output : Nat
  total : Nat
deriving DecidableEq, Repr

/-- The token extraction `usageMetadata?.xxxTokenCount || 0`. -/
def tokensOf (r : GenResponse) : TokenUsage where
  input := (r.usageMetadata.bind UsageMeta.promptTokenCount).getD 0
  output := (r.usageMetadata.bind UsageMeta.candidatesTokenCount).getD 0
  total := (r.usageMetadata.bind UsageMeta.totalTokenCount).getD 0

/-- The per-part test of the image extraction loops: not a thought part,
and carrying inline data whose mimeType includes "image" and whose payload
is present and nonempty — the source tests `part.inlineData?.data` for
truthiness, so an empty-string payload is skipped. -/
def viablePart (p : Part) : Bool :=
  !p.thought &&
    (match p.inlineData with
     | some d =>
       (match d.mimeType with
        | some m => containsL "image".data m.data
        | none => false) &&
       (match d.data with
        | some s => !(s = "" : Bool)
        | none => false)
     | none => false)

/-- The image extraction loop: the payload of the first viable part. -/
def findImageData (parts : List Part) : Option String :=
  match parts.find? viablePart with
  | some p => p.inlineData.bind InlineData.data
  | none => none

/-- Decimal digit character. -/
def digitChar (d : Nat) : Char :=
  if d = 0 then '0' else if d = 1 then '1' else if d = 2 then '2'
  else if d = 3 then '3' else if d = 4 then '4' else if d = 5 then '5'
  else if d = 6 then '6' else if d = 7 then '7' else if d = 8 then '8'
  else '9'

/-- Decimal digits of a natural number with a fuel bound: correct whenever
n is below 10 to the fuel. -/
def natDecAux : Nat → Nat → List Char
  | 0, _ => []
  | f + 1, n =>
    if n < 10 then [digitChar n]
    else natDecAux f (n / 10) ++ [digitChar (n % 10)]

/-- Decimal representation of a natural number, the model of the template
literal interpolation of numbers in filenames. -/
def natDec (n : Nat) : List Char :=
  natDecAux (n + 1) n

/-- Decimal representation as a string. -/
def natDecS (n : Nat) : String :=
  ⟨natDec n⟩

/-- The generated image filename, from the slide number and the clock
reading: test-slide-NUMBER-TIMESTAMP.png. -/
def mkFilename (slideNumber timestamp : Nat) : String :=
  "test-slide-" ++ natDecS slideNumber ++ "-" ++ natDecS timestamp ++ ".png"

/-- The relative URL of a generated image, under the fixed carousel
output directory. -/
def mkImageUrl (slideNumber timestamp : Nat) : String :=
  "/uploads/carousel/" ++ mkFilename slideNumber timestamp

/-- Status of a per-slide generation result in the remaining-images stage. -/
inductive GenStatus where
  | completed
  | failed
deriving DecidableEq, Repr

/-- A per-slide result of the remaining-images stage. -/
structure GenerationResult where
  slideNumber : Nat
  imageUrl : Option String
  status : GenStatus
  tokens : Option TokenUsage
  error : Option String
deriving DecidableEq, Repr

/-- The try-block body of one iteration of the remaining-images loop
(server.ts lines 250-337): blank-prompt check, templating and guard,
external call, candidate and image extraction, file write.  Any failure is
the thrown error message. -/
def processSlideE (prompt : String) (slide : SlideContent) (api : String → GenResponse)
    (writeErr : Option String) (timestamp : Nat) : Except String (String × TokenUsage) :=
  if prompt = "" || jsTrim prompt = "" then
    .error "Prompt is required. Please provide a prompt in the remaining images prompt box."
  else
    let finalPrompt := imageGuard (substituteHE prompt slide.heading slide.explanation)
    let resp := api finalPrompt
    match resp.candidates with
    | none => .error "No candidates in response"
    | some [] => .error "No candidates in response"
    | some (cand :: _) =>
      let parts :=
        match cand.content with
        | some body => body.parts.getD []
        | none => []
      match findImageData parts with
      | none => .error "No image data found"
      | some _ =>
        match writeErr with
        | some m => .error m
        | none => .ok (mkImageUrl slide.slideNumber timestamp, tokensOf resp)

/-- One iteration of the remaining-images loop with its catch clause
(server.ts lines 338-346): a failure becomes a result with status failed
and the error message. -/
def processSlide (prompt : String) (slide : SlideContent) (api : String → GenResponse)
    (writeErr : Option String) (timestamp : Nat) : GenerationResult :=
  match processSlideE prompt slide api writeErr timestamp with
  | .ok (url, tok) => ⟨slide.slideNumber, some url, .completed, some tok, none⟩
  | .error m => ⟨slide.slideNumber, none, .failed, none, some m⟩

/-- The environment of the remaining-images stage: existence of the
reference image on disk, the external API (per loop iteration, per request
prompt), the write outcome of each iteration (the thrown message, if any),
and the clock reading of each iteration. -/
structure StageCEnv where
  refExists : Bool
  api : Nat → String → GenResponse
  writeErr : Nat → Option String
  time : Nat → Nat

/-- The sequential per-slide loop of the remaining-images stage, indexed by
the iteration counter. -/
def runSlides (prompt : String) (env : StageCEnv) :
    List SlideContent → Nat → List GenerationResult
  | [], _ => []
  | s :: rest, i =>
    processSlide prompt s (env.api i) (env.writeErr i) (env.time i) ::
      runSlides prompt env rest (i + 1)

/-- The remaining-images handler (server.ts lines 222-360): top-level
validation of the slides list, the reference URL and the reference file,
then the sequential loop; the outer call succeeds whenever the
preconditions hold. -/
def generateRemainingImages (prompt : String) (slides : List SlideContent)
    (firstImageUrl : String) (env : StageCEnv) : Except String (List GenerationResult) :=
  if slides.isEmpty then .error "Slides are required"
  else if firstImageUrl = "" then .error "First image URL is required"
  else if !env.refExists then .error "Reference image not found"
  else .ok (runSlides prompt env slides 0)

/-- The success payload of the first-image stage. -/
structure FirstImageOut where
  imageUrl : String
  slideNumber : Nat
  tokens : TokenUsage
deriving DecidableEq, Repr

/-- The first-image handler (server.ts lines 121-217).  totalSlides is
received but informational only; the write outcome and the clock are
parameters as in the loop model. -/
def generateFirstImage (prompt heading explanation : String) (slideNumber : Nat)
    (api : String → GenResponse) (writeErr : Option String) (timestamp : Nat) :
    Except String FirstImageOut :=
  if heading = "" || explanation = "" then
    .error "Heading and explanation are required"
  else if prompt = "" || jsTrim prompt = "" then
    .error "Prompt is required. Please provide a prompt in the first image prompt box."
  else
    let finalPrompt := imageGuard (substituteHE prompt heading explanation)
    let resp := api finalPrompt
    match resp.candidates with
    | none => .error "No candidates in response"
    | some [] => .error "No candidates in response"
    | some (cand :: _) =>
      match cand.content with
      | none => .error "No content parts in response"
      | some body =>
        match body.parts with
        | none => .error "No content parts in response"
        | some parts =>
          match findImageData parts with
          | none => .error "No image data found in response"
          | some _ =>
            match writeErr with
            | some m => .error m
            | none => .ok ⟨mkImageUrl slideNumber timestamp, slideNumber, tokensOf resp⟩

/-- The last-resort text extraction of the content stage (server.ts lines
89-95): concatenated part texts when candidates and parts exist, otherwise
the stringified response. -/
def extractTextFallback (r : GenResponse) : String :=
  match r.candidates with
  | some (c :: _) =>
    match c.content with
    | some body =>
      match body.parts with
      | some parts => String.join (parts.map (fun p => p.text.getD ""))
      | none => r.stringified
    | none => r.stringified
  | _ => r.stringified

/-- The text extraction of the content stage (server.ts lines 86-95): the
text field when present and nonempty, else the fallback. -/
def extractText (r : GenResponse) : String :=
  match r.text with
  | some t => if t = "" then extractTextFallback r else t
  | none => extractTextFallback r

/-- The success payload of the content stage. -/
structure ContentOut where
  slides : List SlideContent
  rawResponse : String
deriving DecidableEq, Repr

/-- The content handler (server.ts lines 60-116): transcript and prompt
validation, transcript templating, external call, text extraction,
parsing. -/
def generateContent (prompt transcript : String) (api : String → GenResponse) :
    Except String ContentOut :=
  if transcript = "" then .error "Transcript is required"
  else if prompt = "" || jsTrim prompt = "" then .error "Prompt is required"
  else
    let finalPrompt := substituteTranscript prompt transcript
    let resp := api finalPrompt
    let text := extractText resp
    .ok ⟨parseSlideContent text, text⟩

/-! ### Specification-side definitions

Definitions below express properties in the spec's own vocabulary, to be
compared with the code model above. -/

/-- Modelled from the spec (Placeholder Templater contract): independent
simultaneous substitution of the two named placeholders in one left-to-right
scan of the template, never rescanning substituted text, so that a
placeholder-shaped substring inside a replacement value survives verbatim.
Fuel-based like replFuel; the fuel is the template length. -/
def simSubstFuel (h e : List Char) : Nat → List Char → List Char
  | _, [] => []
  | 0, cs => cs
  | f + 1, c :: cs' =>
    if startsWithL "{heading}".data (c :: cs') then
      h ++ simSubstFuel h e f (List.drop 8 cs')
    else if startsWithL "{explanation}".data (c :: cs') then
      e ++ simSubstFuel h e f (List.drop 12 cs')
    else c :: simSubstFuel h e f cs'

/-- Modelled from the spec: simultaneous independent substitution of
the heading and explanation placeholders. -/
def simSubstHE (T h e : String) : String :=
  ⟨simSubstFuel h.data e.data T.data.length T.data⟩

/-- A token (given in lowercase) appears case-insensitively in a string:
some contiguous substring lowercases to it. -/
def appearsCI (tok p : String) : Prop :=
  ∃ m : List Char, m <:+: p.data ∧ lowerL m = tok.data

/-- The input contains an occurrence of the slide marker: somewhere the word
"slide" (any letter case), then at least one whitespace character, then at
least one decimal digit. -/
def appearsMarker (text : String) : Prop :=
  ∃ pre s w d rest : List Char,
    text.data = pre ++ s ++ w ++ d ++ rest ∧
    lowerL s = "slide".data ∧
    w ≠ [] ∧ (∀ c ∈ w, isSpc c = true) ∧
    d ≠ [] ∧ (∀ c ∈ d, isDigitC c = true)

/-- The parts list a remaining-images iteration inspects:
`candidates[0]?.content?.parts || []` of the response. -/
def stageCPartsOf (r : GenResponse) : List Part :=
  match r.candidates with
  | some (cand :: _) =>
    match cand.content with
    | some body => body.parts.getD []
    | none => []
  | _ => []

/-- Spec-side enumeration of the per-slide failure causes of the
remaining-images stage: missing prompt, no candidates, no image-bearing
part, write failure. -/
def slideFails (prompt : String) (resp : GenResponse) (writeErr : Option String) : Prop :=
  jsTrim prompt = "" ∨
  resp.candidates.getD [] = [] ∨
  (¬ ∃ p ∈ stageCPartsOf resp, viablePart p = true) ∨
  writeErr ≠ none

/-- Spec-side failure message of a failing slide, in the order the causes
are checked. -/
def slideFailMsg (prompt : String) (resp : GenResponse) (writeErr : Option String) : String :=
  if jsTrim prompt = "" then
    "Prompt is required. Please provide a prompt in the remaining images prompt box."
  else if resp.candidates.getD [] = [] then "No candidates in response"
  else if findImageData (stageCPartsOf resp) = none then "No image data found"
  else writeErr.getD ""

/-- Case-insensitive substring test (token given in lowercase). -/
def hasSubCI (tok s : String) : Bool :=
  containsL tok.data (lowerL s.data)

/-- Well-formedness of a heading or explanation value for the two-block
parser theorem: nonempty, single-line, not starting or ending with
whitespace, containing no slide word, no field label, and no emphasis
marker. -/
def goodField (s : String) : Bool :=
  !s.data.isEmpty &&
  s.data.all (fun c => !(c = '\n' : Bool)) &&
  (match s.data.head? with
   | some c => !isSpc c
   | none => false) &&
  (match s.data.getLast? with
   | some c => !isSpc c
   | none => false) &&
  !hasSubCI "slide" s &&
  !hasSubCI "heading:" s &&
  !hasSubCI "explanation:" s &&
  !containsL "**".data s.data &&
  !containsL "__".data s.data

/-- A canonical text with exactly two well-formed
Slide N / Heading: H / Explanation: E blocks. -/
def mkTwoSlideText (n1 : Nat) (h1 e1 : String) (n2 : Nat) (h2 e2 : String) : String :=
  "Slide " ++ natDecS n1 ++ "\nHeading: " ++ h1 ++ "\nExplanation: " ++ e1 ++
    "\nSlide " ++ natDecS n2 ++ "\nHeading: " ++ h2 ++ "\nExplanation: " ++ e2

/-- The content block the split produces for a Slide N / Heading / Explanation
section of mkTwoSlideText: everything between the slide marker and the next
marker (or the end), with z the trailing text after the explanation (a
newline before a following marker, or nothing for the last block). -/
def blockBody (h e : String) (z : List Char) : List Char :=
  '\n' :: ("Heading: ".data ++ (h.data ++ ('\n' :: ("Explanation: ".data ++ (e.data ++ z)))))

/-- A concrete successful response carrying one inline image part, used as a
fixture in witnesses. -/
def okResp : GenResponse where
  text := none
  candidates := some [⟨some ⟨some [⟨false, none, some ⟨some "image/png", some "AAAA"⟩⟩]⟩⟩]
  usageMetadata := none
  stringified := "resp"

/-- A concrete response with no candidates, used as a fixture in witnesses. -/
def emptyResp : GenResponse where
  text := none
  candidates := some []
  usageMetadata := none
  stringified := "resp"

/-! ## Lemmas about the string primitives -/

theorem startsWithL_iff {pat cs : List Char} : startsWithL pat cs = true ↔ pat <+: cs := by
  induction pat generalizing cs with
  | nil => simp [startsWithL]
  | cons p ps ih =>
    cases cs with
    | nil => simp [startsWithL]
    | cons c cs' =>
      simp [startsWithL, ih, List.cons_prefix_cons]

theorem containsL_iff {pat cs : List Char} : containsL pat cs = true ↔ pat <:+: cs := by
  induction cs with
  | nil => simp [containsL, startsWithL_iff]
  | cons c cs' ih =>
    simp [containsL, startsWithL_iff, ih, List.infix_cons_iff]

theorem containsL_false_iff {pat cs : List Char} :
    containsL pat cs = false ↔ ¬ pat <:+: cs := by
  rw [← containsL_iff]
  cases containsL pat cs <;> simp

theorem infix_of_drop {t cs : List Char} {k : Nat} (h : t <:+: List.drop k cs) :
    t <:+: cs := by
  obtain ⟨s, u, hsu⟩ := h
  refine ⟨cs.take k ++ s, u, ?_⟩
  have : (cs.take k ++ s) ++ t ++ u = cs.take k ++ (s ++ t ++ u) := by
    simp [List.append_assoc]
  rw [this, hsu, List.take_append_drop]

theorem containsL_false_tail {pat : List Char} {c : Char} {cs : List Char}
    (h : containsL pat (c :: cs) = false) : containsL pat cs = false := by
  simp only [containsL, Bool.or_eq_false_iff] at h
  exact h.2

theorem containsL_false_drop {pat cs : List Char} {k : Nat}
    (h : containsL pat cs = false) : containsL pat (List.drop k cs) = false := by
  rw [containsL_false_iff] at h ⊢
  exact fun hc => h (infix_of_drop hc)

theorem replFuel_nil (pat rep : List Char) (f : Nat) (pre : List Char) :
    replFuel pat rep f pre [] = [] := by
  cases f <;> rfl

theorem replFuel_congr {pat rep : List Char} :
    ∀ {f g : Nat} {pre cs : List Char}, cs.length ≤ f → cs.length ≤ g →
      replFuel pat rep f pre cs = replFuel pat rep g pre cs := by
  intro f
  induction f with
  | zero =>
    intro g pre cs hf _
    have : cs = [] := List.length_eq_zero.mp (Nat.le_zero.mp hf)
    subst this
    rw [replFuel_nil, replFuel_nil]
  | succ f ih =>
    intro g pre cs hf hg
    cases cs with
    | nil => rw [replFuel_nil, replFuel_nil]
    | cons c cs' =>
      cases g with
      | zero => simp at hg
      | succ g' =>
        simp only [List.length_cons] at hf hg
        show replFuel pat rep (f + 1) pre (c :: cs') =
          replFuel pat rep (g' + 1) pre (c :: cs')
        simp only [replFuel]
        cases hs : startsWithL pat (c :: cs') with
        | true =>
          simp only [if_true]
          congr 1
          have hd : (List.drop (pat.length - 1) cs').length ≤ cs'.length := by
            simp [List.length_drop]
          exact ih (le_trans hd (by omega)) (le_trans hd (by omega))
        | false =>
          simp only [Bool.false_eq_true, if_false]
          congr 1
          exact ih (by omega) (by omega)

theorem replaceAllL_nil (pat rep : List Char) : replaceAllL pat rep [] = [] := rfl

theorem expandRep_no_dollar {m b a : List Char} :
    ∀ {rep : List Char}, ('$' : Char) ∉ rep → expandRep m b a rep = rep := by
  intro rep
  induction rep with
  | nil => intro _; rfl
  | cons c rest ih =>
    intro hd
    have hc : ¬ c = '$' := by
      intro hh
      apply hd
      rw [← hh]
      exact List.mem_cons_self _ _
    cases rest with
    | nil => rfl
    | cons d r =>
      show expandRep m b a (c :: d :: r) = c :: d :: r
      simp only [expandRep]
      rw [if_neg hc, ih (fun hm => hd (List.mem_cons_of_mem _ hm))]

theorem replFuel_id {pat rep : List Char} :
    ∀ {f : Nat} {pre cs : List Char}, cs.length ≤ f → containsL pat cs = false →
      replFuel pat rep f pre cs = cs := by
  intro f
  induction f with
  | zero =>
    intro pre cs hf _
    have : cs = [] := List.length_eq_zero.mp (Nat.le_zero.mp hf)
    subst this
    rw [replFuel_nil]
  | succ f ih =>
    intro pre cs hf hc
    cases cs with
    | nil => rw [replFuel_nil]
    | cons c cs' =>
      simp only [List.length_cons] at hf
      simp only [containsL, Bool.or_eq_false_iff] at hc
      show replFuel pat rep (f + 1) pre (c :: cs') = c :: cs'
      simp only [replFuel, hc.1, Bool.false_eq_true, if_false]
      rw [ih (by omega) hc.2]

theorem replaceAllL_id {pat rep cs : List Char} (h : containsL pat cs = false) :
    replaceAllL pat rep cs = cs :=
  replFuel_id le_rfl h

theorem strMk_data (s : String) : (⟨s.data⟩ : String) = s := by
  cases s
  rfl

/-! ## C8: idempotence of substitution once no placeholder key remains -/

/-- C8: for every template and heading and explanation values, once the
substituted result contains neither the {heading} nor the {explanation}
token, substituting a second time with the same mapping changes nothing. -/
theorem substituteHE_idempotent (T h e : String)
    (h1 : includesS (substituteHE T h e) "{heading}" = false)
    (h2 : includesS (substituteHE T h e) "{explanation}" = false) :
    substituteHE (substituteHE T h e) h e = substituteHE T h e := by
  have h1' : containsL "{heading}".data (substituteHE T h e).data = false := h1
  have h2' : containsL "{explanation}".data (substituteHE T h e).data = false := h2
  show replaceAllS "{explanation}" e (replaceAllS "{heading}" h (substituteHE T h e)) =
    substituteHE T h e
  have inner : replaceAllS "{heading}" h (substituteHE T h e) = substituteHE T h e := by
    unfold replaceAllS
    rw [replaceAllL_id h1', strMk_data]
  rw [inner]
  unfold replaceAllS
  rw [replaceAllL_id h2', strMk_data]

/-- Witness for C8 at a concrete template and mapping. -/
theorem substituteHE_idempotent_witness :
    includesS (substituteHE "Use {heading} and {explanation}." "H" "E") "{heading}" = false ∧
    includesS (substituteHE "Use {heading} and {explanation}." "H" "E") "{explanation}" = false ∧
    substituteHE (substituteHE "Use {heading} and {explanation}." "H" "E") "H" "E" =
      substituteHE "Use {heading} and {explanation}." "H" "E" :=
  ⟨by decide, by decide, substituteHE_idempotent _ _ _ (by decide) (by decide)⟩

/-! ## C2: substitution is sequential, not independent -/

/-- C2 counterexample: with template "\x7bheading\x7d" and a heading value that is
literally the text "\x7bexplanation\x7d", that text does not appear unchanged in
the output — the second replacement pass rewrites it to the explanation
value "X". -/
theorem substituteHE_value_rescanned_cex :
    substituteHE "{heading}" "{explanation}" "X" = "X" ∧
      substituteHE "{heading}" "{explanation}" "X" ≠ "{explanation}" :=
  ⟨by decide, by decide⟩

theorem replFuel_eq_simSubstFuel (h e : List Char) (hds : ('$' : Char) ∉ h) :
    ∀ (f : Nat) (pre cs : List Char), cs.length ≤ f →
      containsL "{explanation}".data cs = false →
      replFuel "{heading}".data h f pre cs = simSubstFuel h e f cs := by
  intro f
  induction f with
  | zero =>
    intro pre cs hf _
    have : cs = [] := List.length_eq_zero.mp (Nat.le_zero.mp hf)
    subst this
    rfl
  | succ f ih =>
    intro pre cs hf hc
    cases cs with
    | nil => rfl
    | cons c cs' =>
      simp only [List.length_cons] at hf
      cases hs : startsWithL "{heading}".data (c :: cs') with
      | true =>
        have hlen : ("{heading}".data.length - 1) = 8 := rfl
        simp only [replFuel, simSubstFuel, hs, if_true, hlen]
        rw [expandRep_no_dollar hds]
        congr 1
        have hd : (List.drop 8 cs').length ≤ f := by
          simp only [List.length_drop]
          omega
        exact ih _ _ hd (containsL_false_drop (containsL_false_tail hc))
      | false =>
        have hs2 : startsWithL "{explanation}".data (c :: cs') = false := by
          cases h' : startsWithL "{explanation}".data (c :: cs') with
          | false => rfl
          | true =>
            exfalso
            have : ("{explanation}".data : List Char) <:+: (c :: cs') :=
              (startsWithL_iff.mp h').isInfix
            rw [containsL_false_iff] at hc
            exact hc this
        simp only [replFuel, simSubstFuel, hs, hs2, Bool.false_eq_true, if_false]
        congr 1
        exact ih _ _ (by omega) (containsL_false_tail hc)

/-- C2 amended: the substitution replaces every (heading) token and then
every (explanation) token in two sequential global passes, each interpreting
the JavaScript dollar escapes of its replacement value; whenever the heading
value contains no dollar character and neither the template nor the
intermediate result of the heading pass contains the (explanation) token,
this coincides with the independent simultaneous literal substitution of the
spec — but when the heading value itself contains the (explanation) token,
the second pass rewrites it, as the counterexample shows. -/
theorem substituteHE_eq_simSubst (T h e : String)
    (hds : ('$' : Char) ∉ h.data)
    (hT : includesS T "{explanation}" = false)
    (hMid : includesS (replaceAllS "{heading}" h T) "{explanation}" = false) :
    substituteHE T h e = simSubstHE T h e := by
  have hT' : containsL "{explanation}".data T.data = false := hT
  have hMid' : containsL "{explanation}".data (replaceAllS "{heading}" h T).data = false := hMid
  show replaceAllS "{explanation}" e (replaceAllS "{heading}" h T) = simSubstHE T h e
  have step1 : replaceAllS "{explanation}" e (replaceAllS "{heading}" h T) =
      replaceAllS "{heading}" h T := by
    have hMid2 :
        containsL "{explanation}".data (replaceAllL "{heading}".data h.data T.data) = false :=
      hMid'
    show (⟨replaceAllL "{explanation}".data e.data
        (replaceAllL "{heading}".data h.data T.data)⟩ : String) =
      ⟨replaceAllL "{heading}".data h.data T.data⟩
    rw [replaceAllL_id hMid2]
  rw [step1]
  show (⟨replaceAllL "{heading}".data h.data T.data⟩ : String) = simSubstHE T h e
  unfold simSubstHE replaceAllL
  exact congrArg String.mk
    (replFuel_eq_simSubstFuel h.data e.data hds T.data.length [] T.data le_rfl hT')

/-- Witness for the amended C2 at a concrete template and mapping. -/
theorem substituteHE_eq_simSubst_witness :
    (('$' : Char) ∉ ("Cats" : String).data) ∧
    includesS "On {heading} we talk" "{explanation}" = false ∧
    includesS (replaceAllS "{heading}" "Cats" "On {heading} we talk") "{explanation}" = false ∧
    substituteHE "On {heading} we talk" "Cats" "Fluffy" =
      simSubstHE "On {heading} we talk" "Cats" "Fluffy" :=
  ⟨by decide, by decide, by decide,
    substituteHE_eq_simSubst _ _ _ (by decide) (by decide) (by decide)⟩

/-! ## C3: the image-instruction guard -/

theorem infix_map_iff {f : Char → Char} {t l : List Char} :
    t <:+: l.map f ↔ ∃ m : List Char, m <:+: l ∧ m.map f = t := by
  constructor
  · rintro ⟨s, u, hsu⟩
    refine ⟨(l.drop s.length).take t.length, ?_, ?_⟩
    · refine ⟨l.take s.length, (l.drop s.length).drop t.length, ?_⟩
      have : l.take s.length ++ ((l.drop s.length).take t.length ++
          (l.drop s.length).drop t.length) = l := by
        rw [List.take_append_drop, List.take_append_drop]
      calc l.take s.length ++ (l.drop s.length).take t.length ++
            (l.drop s.length).drop t.length
          = l.take s.length ++ ((l.drop s.length).take t.length ++
            (l.drop s.length).drop t.length) := by rw [List.append_assoc]
        _ = l := this
    · have hdrop : (l.map f).drop s.length = t ++ u := by
        rw [← hsu, List.append_assoc, List.drop_left]
      calc ((l.drop s.length).take t.length).map f
          = ((l.drop s.length).map f).take t.length := by rw [List.map_take]
        _ = ((l.map f).drop s.length).take t.length := by rw [List.map_drop]
        _ = (t ++ u).take t.length := by rw [hdrop]
        _ = t := List.take_left _ _
  · rintro ⟨m, ⟨s, u, hsu⟩, hm⟩
    refine ⟨s.map f, u.map f, ?_⟩
    rw [← hm, ← List.map_append, ← List.map_append, hsu]

theorem appearsCI_iff {tok p : String} :
    containsL tok.data (lowerL p.data) = true ↔ appearsCI tok p := by
  rw [containsL_iff]
  unfold lowerL appearsCI
  exact infix_map_iff

/-- C3 counterexample: "Draw a blue circle" contains none of the tokens
generate, create, image, so the guard prepends the instruction instead of
leaving the prompt unchanged, contrary to the spec's example. -/
theorem imageGuard_draw_cex :
    imageGuard "Draw a blue circle" = "Generate an image: Draw a blue circle" ∧
      imageGuard "Draw a blue circle" ≠ "Draw a blue circle" :=
  ⟨by decide, by decide⟩

/-- C3 amended: the guard leaves the prompt unchanged exactly when one of
the case-insensitive tokens generate, create, image appears in it, and
prepends the fixed instruction otherwise; "A red square" is prefixed, as the
spec says, and "Draw a blue circle" is prefixed as well, contrary to the
spec's other example, since it contains none of the tokens. -/
theorem imageGuard_spec :
    (∀ p : String,
      (imageGuard p = p ↔
        appearsCI "generate" p ∨ appearsCI "create" p ∨ appearsCI "image" p) ∧
      (imageGuard p = p ∨ imageGuard p = "Generate an image: " ++ p)) ∧
    imageGuard "A red square" = "Generate an image: A red square" ∧
    imageGuard "Draw a blue circle" = "Generate an image: Draw a blue circle" := by
  refine ⟨fun p => ?_, by decide, by decide⟩
  have hne : "Generate an image: " ++ p ≠ p := by
    intro hh
    have hlen := congrArg String.length hh
    rw [String.length_append] at hlen
    have : ("Generate an image: " : String).length = 19 := rfl
    omega
  unfold imageGuard
  split
  case isTrue hcond =>
    simp only [Bool.and_eq_true, Bool.not_eq_true'] at hcond
    obtain ⟨⟨hg, hc⟩, hi⟩ := hcond
    constructor
    · constructor
      · intro hh
        exact absurd hh hne
      · rintro (ha | ha | ha) <;>
          rw [← appearsCI_iff] at ha
        · rw [hg] at ha
          exact absurd ha (by simp)
        · rw [hc] at ha
          exact absurd ha (by simp)
        · rw [hi] at ha
          exact absurd ha (by simp)
    · right
      rfl
  case isFalse hcond =>
    constructor
    · simp only [true_iff, iff_true]
      rw [Bool.and_eq_true, Bool.and_eq_true, Bool.not_eq_true', Bool.not_eq_true',
        Bool.not_eq_true'] at hcond
      rcases Bool.eq_false_or_eq_true (containsL "generate".data (lowerL p.data)) with hg | hg
      · exact Or.inl (appearsCI_iff.mp hg)
      · rcases Bool.eq_false_or_eq_true (containsL "create".data (lowerL p.data)) with hc | hc
        · exact Or.inr (Or.inl (appearsCI_iff.mp hc))
        · rcases Bool.eq_false_or_eq_true (containsL "image".data (lowerL p.data)) with hi | hi
          · exact Or.inr (Or.inr (appearsCI_iff.mp hi))
          · exact absurd ⟨⟨hg, hc⟩, hi⟩ hcond
    · left
      rfl

/-! ## C9: filenames and collisions -/

theorem isDigitC_digitChar (d : Nat) : isDigitC (digitChar d) = true := by
  unfold digitChar
  split_ifs <;> decide

theorem natDecAux_digits {f n : Nat} {c : Char} (h : c ∈ natDecAux f n) :
    isDigitC c = true := by
  induction f generalizing n with
  | zero => simp [natDecAux] at h
  | succ f ih =>
    unfold natDecAux at h
    split at h
    · simp at h
      subst h
      exact isDigitC_digitChar n
    · rw [List.mem_append] at h
      rcases h with h | h
      · exact ih h
      · simp at h
        subst h
        exact isDigitC_digitChar (n % 10)

theorem natDec_digits {n : Nat} {c : Char} (h : c ∈ natDec n) : isDigitC c = true :=
  natDecAux_digits h

theorem digitChar_toNat {d : Nat} (h : d < 10) : (digitChar d).toNat - 48 = d := by
  interval_cases d <;> decide

theorem toNatD_append_digit (ds : List Char) (c : Char) :
    toNatD (ds ++ [c]) = 10 * toNatD ds + (c.toNat - 48) := by
  unfold toNatD
  rw [List.foldl_append]
  rfl

theorem toNatD_natDecAux : ∀ (f n : Nat), n < 10 ^ f → toNatD (natDecAux f n) = n := by
  intro f
  induction f with
  | zero =>
    intro n hn
    have : n = 0 := by simpa using hn
    subst this
    rfl
  | succ f ih =>
    intro n hn
    unfold natDecAux
    split
    case isTrue h10 =>
      show toNatD [digitChar n] = n
      have : toNatD [digitChar n] = (digitChar n).toNat - 48 := by
        unfold toNatD
        simp
      rw [this, digitChar_toNat h10]
    case isFalse h10 =>
      rw [toNatD_append_digit, ih (n / 10) ?_, digitChar_toNat (Nat.mod_lt _ (by omega))]
      · omega
      · have hp : 10 ^ (f + 1) = 10 ^ f * 10 := by ring
        rw [hp] at hn
        exact Nat.div_lt_of_lt_mul (by omega)

theorem toNatD_natDec (n : Nat) : toNatD (natDec n) = n := by
  unfold natDec
  exact toNatD_natDecAux (n + 1) n (by
    calc n < 10 ^ n := Nat.lt_pow_self (by omega) n
      _ ≤ 10 ^ (n + 1) := Nat.pow_le_pow_right (by omega) (by omega))

theorem natDec_inj {m n : Nat} (h : natDec m = natDec n) : m = n := by
  have := congrArg toNatD h
  rw [toNatD_natDec, toNatD_natDec] at this
  exact this

theorem append_sep_inj {c : Char} {a1 b1 a2 b2 : List Char}
    (h : a1 ++ c :: b1 = a2 ++ c :: b2) (hc1 : c ∉ a1) (hc2 : c ∉ a2) :
    a1 = a2 ∧ b1 = b2 := by
  induction a1 generalizing a2 with
  | nil =>
    cases a2 with
    | nil => simpa using h
    | cons x a2' =>
      simp only [List.nil_append, List.cons_append, List.cons.injEq] at h
      exfalso
      exact hc2 (h.1 ▸ List.mem_cons_self x a2')
  | cons x a1' ih =>
    cases a2 with
    | nil =>
      simp only [List.cons_append, List.nil_append, List.cons.injEq] at h
      exfalso
      exact hc1 (h.1.symm ▸ List.mem_cons_self x a1')
    | cons y a2' =>
      simp only [List.cons_append, List.cons.injEq] at h
      obtain ⟨hxy, hrest⟩ := h
      have := ih hrest (fun hm => hc1 (List.mem_cons_of_mem x hm))
        (fun hm => hc2 (hxy ▸ List.mem_cons_of_mem y hm))
      exact ⟨by rw [hxy, this.1], this.2⟩

/-- C9 amended: a generated image lives under the fixed carousel directory
with a name derived from the slide number and the clock reading, and two
filenames coincide exactly when both the slide numbers and the clock
readings coincide — so writes in the same millisecond for the same slide
number collide, as the counterexample shows, while distinct pairs never
do. -/
theorem mkFilename_inj :
    (∀ n1 t1 n2 t2 : Nat,
      mkFilename n1 t1 = mkFilename n2 t2 ↔ n1 = n2 ∧ t1 = t2) ∧
    (∀ n t : Nat, mkImageUrl n t = "/uploads/carousel/" ++ mkFilename n t) := by
  refine ⟨fun n1 t1 n2 t2 => ⟨fun h => ?_, fun h => by rw [h.1, h.2]⟩, fun n t => rfl⟩
  have hdata := congrArg String.data h
  have expand : ∀ n t : Nat, (mkFilename n t).data =
      "test-slide-".data ++ (natDec n ++ '-' :: (natDec t ++ ".png".data)) := by
    intro n t
    show ("test-slide-" ++ natDecS n ++ "-" ++ natDecS t ++ ".png").data = _
    rw [String.data_append, String.data_append, String.data_append, String.data_append]
    show ((("test-slide-".data ++ (natDec n)) ++ "-".data) ++ natDec t) ++ ".png".data = _
    simp [List.append_assoc]
  rw [expand, expand] at hdata
  have h1 := List.append_cancel_left hdata
  have hdash : ∀ m : Nat, ('-' : Char) ∉ natDec m := by
    intro m hm
    have := natDec_digits hm
    simp [isDigitC] at this
  have h2 := append_sep_inj h1 (hdash n1) (hdash n2)
  have hn : n1 = n2 := natDec_inj h2.1
  have hdot : ∀ m : Nat, ('.' : Char) ∉ natDec m := by
    intro m hm
    have := natDec_digits hm
    simp [isDigitC] at this
  have h3 : natDec t1 ++ '.' :: "png".data = natDec t2 ++ '.' :: "png".data := by
    have := h2.2
    simpa using this
  have h4 := append_sep_inj h3 (hdot t1) (hdot t2)
  exact ⟨hn, natDec_inj h4.1⟩

/-- C9 counterexample: two slides with the same slide number processed at
the same clock reading produce identical image URLs, so the two writes go
to the same file. -/
theorem filename_collision_cex :
    Except.map (fun rs => rs.map GenerationResult.imageUrl)
      (generateRemainingImages "make an image" [⟨1, "a", "b"⟩, ⟨1, "c", "d"⟩] "/u"
        ⟨true, fun _ _ => okResp, fun _ => none, fun _ => 5⟩) =
    Except.ok [some "/uploads/carousel/test-slide-1-5.png",
      some "/uploads/carousel/test-slide-1-5.png"] := rfl

/-! ## C5 and C10: the per-block guard and emphasis stripping -/

/-- C5 counterexample: the guard tests the stored strings — trimmed, then
emphasis-stripped — for nonemptiness, and stripping can leave a
whitespace-only heading, so a record whose heading is empty after trimming
is still produced. -/
theorem parser_blank_heading_cex :
    parseSlideContent "Slide 1\nHeading: ** **\nExplanation: hi" = [⟨1, " ", "hi"⟩] ∧
    jsTrim " " = "" :=
  ⟨rfl, rfl⟩

theorem parseBlocks_mem {r : SlideContent} :
    ∀ {bl : List (Nat × List Char)}, r ∈ parseBlocks bl →
      ∃ n content, (n, content) ∈ bl ∧
        extractHeading content ≠ [] ∧ extractExplanation content ≠ [] ∧
        r = ⟨n, ⟨extractHeading content⟩, ⟨extractExplanation content⟩⟩ := by
  intro bl
  induction bl with
  | nil => intro h; simp [parseBlocks] at h
  | cons b rest ih =>
    intro h
    obtain ⟨n, content⟩ := b
    unfold parseBlocks at h
    by_cases hg : (!(extractHeading content).isEmpty &&
        !(extractExplanation content).isEmpty) = true
    · rw [if_pos hg] at h
      simp only [Bool.and_eq_true, Bool.not_eq_true', List.isEmpty_eq_false] at hg
      rcases List.mem_cons.mp h with h1 | h1
      · exact ⟨n, content, List.mem_cons_self _ _, hg.1, hg.2, h1⟩
      · obtain ⟨n', c', hm, hh, he, hr⟩ := ih h1
        exact ⟨n', c', List.mem_cons_of_mem _ hm, hh, he, hr⟩
    · rw [if_neg hg] at h
      obtain ⟨n', c', hm, hh, he, hr⟩ := ih h
      exact ⟨n', c', List.mem_cons_of_mem _ hm, hh, he, hr⟩

/-- C5 amended: a block yields a record exactly when both stored fields —
the captures after trimming and emphasis stripping — are nonempty strings
(they may still be whitespace-only, as the counterexample shows); a block
missing either field yields no record while sibling well-formed blocks are
still returned. -/
theorem parser_guard_nonempty :
    (∀ text : String, ∀ r ∈ parseSlideContent text,
      r.heading ≠ "" ∧ r.explanation ≠ "") ∧
    parseSlideContent
        "Slide 1\nHeading: OnlyHeading\nSlide 2\nHeading: Dogs\nExplanation: Loyal." =
      [⟨2, "Dogs", "Loyal."⟩] := by
  refine ⟨fun text r hr => ?_, rfl⟩
  obtain ⟨n, content, _, hh, he, hr⟩ := parseBlocks_mem hr
  subst hr
  constructor
  · intro hc
    exact hh (congrArg String.data hc)
  · intro hc
    exact he (congrArg String.data hc)

/-- Witness for the amended C5 at a concrete parse. -/
theorem parser_guard_nonempty_witness :
    ((⟨1, "Cats", "Independent."⟩ : SlideContent) ∈
      parseSlideContent "Slide 1\nHeading: Cats\nExplanation: Independent.") ∧
    (⟨1, "Cats", "Independent."⟩ : SlideContent).heading ≠ "" ∧
    (⟨1, "Cats", "Independent."⟩ : SlideContent).explanation ≠ "" :=
  ⟨by decide,
    parser_guard_nonempty.1 "Slide 1\nHeading: Cats\nExplanation: Independent."
      ⟨1, "Cats", "Independent."⟩ (by decide)⟩

/-- C10 counterexample: stripping is two sequential global passes, first all
double-asterisk pairs and then all double-underscore pairs, so deleting an
underscore pair can form a new double-asterisk pair that survives into the
returned record. -/
theorem strip_forms_pair_cex :
    parseSlideContent "Slide 1\nHeading: *__*x\nExplanation: ok" = [⟨1, "**x", "ok"⟩] ∧
    includesS "**x" "**" = true :=
  ⟨rfl, rfl⟩

theorem removePairs_cons_head {a y : Char} {rest : List Char} (hy : y ≠ a) :
    ∃ t, removePairs a a (y :: rest) = y :: t := by
  cases rest with
  | nil => exact ⟨[], rfl⟩
  | cons z rest' =>
    unfold removePairs
    have : (decide (y = a) && decide (z = a)) = false := by
      simp [hy]
    rw [this]
    exact ⟨_, rfl⟩

theorem removePairs_no_pair (a : Char) : ∀ s, containsL [a, a] (removePairs a a s) = false := by
  have main : ∀ (n : Nat) (s : List Char), s.length ≤ n →
      containsL [a, a] (removePairs a a s) = false := by
    intro n
    induction n with
    | zero =>
      intro s hs
      have : s = [] := List.length_eq_zero.mp (Nat.le_zero.mp hs)
      subst this
      simp [removePairs, containsL, startsWithL]
    | succ n ih =>
      intro s hs
      cases s with
      | nil => simp [removePairs, containsL, startsWithL]
      | cons x t =>
        cases t with
        | nil => simp [removePairs, containsL, startsWithL]
        | cons y rest =>
          simp only [List.length_cons] at hs
          unfold removePairs
          by_cases hc : (decide (x = a) && decide (y = a)) = true
          · rw [if_pos hc]
            exact ih rest (by omega)
          · rw [if_neg hc]
            have htail : containsL [a, a] (removePairs a a (y :: rest)) = false :=
              ih (y :: rest) (by simp only [List.length_cons]; omega)
            simp only [containsL, Bool.or_eq_false_iff]
            refine ⟨?_, htail⟩
            by_cases hx : x = a
            · have hy : y ≠ a := by
                intro hy2
                rw [hx, hy2] at hc
                simp at hc
              obtain ⟨t', ht'⟩ := removePairs_cons_head hy
              rw [ht']
              simp [startsWithL, (Ne.symm hy : a ≠ y)]
            · simp [startsWithL, (Ne.symm hx : a ≠ x)]
  intro s
  exact main s.length s le_rfl

theorem stripEmphasis_no_underscore (cs : List Char) :
    containsL "__".data (stripEmphasis cs) = false :=
  removePairs_no_pair '_' (removePairs '*' '*' cs)

theorem extractHeading_shape (content : List Char) :
    extractHeading content = [] ∨
      ∃ cap, extractHeading content = stripEmphasis (jsTrimL cap) := by
  unfold extractHeading
  cases findFirst tryH1 content with
  | some cap => exact Or.inr ⟨cap, rfl⟩
  | none =>
    cases findFirst tryH2 content with
    | some cap => exact Or.inr ⟨cap, rfl⟩
    | none =>
      cases findFirst tryH3 content with
      | some cap => exact Or.inr ⟨cap, rfl⟩
      | none => exact Or.inl rfl

theorem extractExplanation_shape (content : List Char) :
    extractExplanation content = [] ∨
      ∃ cap, extractExplanation content = stripEmphasis (jsTrimL (removeTrailSlide (jsTrimL cap))) := by
  unfold extractExplanation
  cases findFirst tryE1 content with
  | some cap =>
    by_cases h1 : (procExpl cap).isEmpty
    · simp only [h1, Bool.not_true, Bool.false_eq_true, if_false]
      cases findFirst tryE2 content with
      | some cap2 =>
        by_cases h2 : (procExpl cap2).isEmpty
        · simp only [h2, Bool.not_true, Bool.false_eq_true, if_false]
          cases findFirst tryE3 content with
          | some cap3 => exact Or.inr ⟨cap3, rfl⟩
          | none => exact Or.inl rfl
        · simp only [h2, Bool.not_false, if_true]
          exact Or.inr ⟨cap2, rfl⟩
      | none =>
        simp only [Bool.not_true, Bool.false_eq_true, if_false]
        show (if !([] : List Char).isEmpty then _ else _) = [] ∨ _
        simp only [List.isEmpty_nil, Bool.not_true, Bool.false_eq_true, if_false]
        cases findFirst tryE3 content with
        | some cap3 => exact Or.inr ⟨cap3, rfl⟩
        | none => exact Or.inl rfl
    · simp only [h1, Bool.not_false, if_true]  -- hmm h1 : ¬ isEmpty = true
      exact Or.inr ⟨cap, rfl⟩
  | none =>
    show (if !([] : List Char).isEmpty then _ else _) = [] ∨ _
    simp only [List.isEmpty_nil, Bool.not_true, Bool.false_eq_true, if_false]
    cases findFirst tryE2 content with
    | some cap2 =>
      by_cases h2 : (procExpl cap2).isEmpty
      · simp only [h2, Bool.not_true, Bool.false_eq_true, if_false]
        cases findFirst tryE3 content with
        | some cap3 => exact Or.inr ⟨cap3, rfl⟩
        | none => exact Or.inl rfl
      · simp only [h2, Bool.not_false, if_true]
        exact Or.inr ⟨cap2, rfl⟩
    | none =>
      show (if !([] : List Char).isEmpty then _ else _) = [] ∨ _
      simp only [List.isEmpty_nil, Bool.not_true, Bool.false_eq_true, if_false]
      cases findFirst tryE3 content with
      | some cap3 => exact Or.inr ⟨cap3, rfl⟩
      | none => exact Or.inl rfl

/-- C10 amended: every double-underscore marker is absent from the stored
fields, since the underscore pass runs last; the asterisk pass runs first,
so a double-asterisk pair formed by the underscore deletions can survive,
as the counterexample shows. -/
theorem parser_strip_no_underscore :
    ∀ text : String, ∀ r ∈ parseSlideContent text,
      includesS r.heading "__" = false ∧ includesS r.explanation "__" = false := by
  intro text r hr
  obtain ⟨n, content, _, _, _, hr⟩ := parseBlocks_mem hr
  subst hr
  constructor
  · show containsL "__".data (extractHeading content) = false
    rcases extractHeading_shape content with h | ⟨cap, h⟩
    · rw [h]; rfl
    · rw [h]; exact stripEmphasis_no_underscore _
  · show containsL "__".data (extractExplanation content) = false
    rcases extractExplanation_shape content with h | ⟨cap, h⟩
    · rw [h]; rfl
    · rw [h]; exact stripEmphasis_no_underscore _

/-- Witness for the amended C10 at a concrete parse. -/
theorem parser_strip_no_underscore_witness :
    ((⟨1, "**x", "ok"⟩ : SlideContent) ∈
      parseSlideContent "Slide 1\nHeading: *__*x\nExplanation: ok") ∧
    includesS ("**x" : String) "__" = false ∧ includesS ("ok" : String) "__" = false :=
  ⟨by decide,
    parser_strip_no_underscore "Slide 1\nHeading: *__*x\nExplanation: ok"
      ⟨1, "**x", "ok"⟩ (by decide)⟩

/-! ## C6: totality of the parser and the no-marker case -/

theorem matchCI_sound {pat cs t : List Char} (h : matchCI pat cs = some t) :
    ∃ pre, cs = pre ++ t ∧ lowerL pre = pat := by
  induction pat generalizing cs with
  | nil =>
    cases h
    exact ⟨[], rfl, rfl⟩
  | cons p ps ih =>
    cases cs with
    | nil => simp [matchCI] at h
    | cons c cs' =>
      simp only [matchCI] at h
      split at h
      case isTrue hc =>
        obtain ⟨pre, hpre, hlow⟩ := ih h
        exact ⟨c :: pre, by rw [List.cons_append, ← hpre], by simp [lowerL] at hlow ⊢; exact ⟨hc, hlow⟩⟩
      case isFalse => exact absurd h (by simp)

theorem matchCI_complete {pat pre : List Char} (h : lowerL pre = pat) (z : List Char) :
    matchCI pat (pre ++ z) = some z := by
  induction pre generalizing pat with
  | nil => cases h; rfl
  | cons c pre' ih =>
    cases h
    simp only [List.cons_append, matchCI, lowerL, List.map_cons]
    simp only [if_true]
    exact ih rfl

theorem takeWhile_all_append {p : Char → Bool} {w : List Char} (hw : ∀ c ∈ w, p c = true)
    (z : List Char) : (w ++ z).takeWhile p = w ++ z.takeWhile p := by
  induction w with
  | nil => rfl
  | cons c w' ih =>
    have hc : p c = true := hw c (List.mem_cons_self _ _)
    simp only [List.cons_append, List.takeWhile_cons, hc, if_true]
    rw [ih (fun x hx => hw x (List.mem_cons_of_mem _ hx))]

theorem dropWhile_all_append {p : Char → Bool} {w : List Char} (hw : ∀ c ∈ w, p c = true)
    (z : List Char) : (w ++ z).dropWhile p = z.dropWhile p := by
  induction w with
  | nil => rfl
  | cons c w' ih =>
    have hc : p c = true := hw c (List.mem_cons_self _ _)
    simp only [List.cons_append, List.dropWhile_cons, hc, if_true]
    exact ih (fun x hx => hw x (List.mem_cons_of_mem _ hx))

theorem isSpc_false_of_digit {c : Char} (h : isDigitC c = true) : isSpc c = false := by
  simp only [isDigitC, Bool.and_eq_true, decide_eq_true_eq] at h
  simp only [isSpc, Bool.or_eq_false_iff, decide_eq_false_iff_not]
  repeat' apply And.intro
  all_goals (intro he; subst he; exact absurd h (by decide))

theorem matchMarker_sound {cs ds rest : List Char} (h : matchMarker cs = some (ds, rest)) :
    ∃ s w, cs = s ++ w ++ ds ++ rest ∧ lowerL s = "slide".data ∧
      w ≠ [] ∧ (∀ c ∈ w, isSpc c = true) ∧ ds ≠ [] ∧ (∀ c ∈ ds, isDigitC c = true) := by
  unfold matchMarker at h
  cases hm : matchCI "slide".data cs with
  | none => rw [hm] at h; exact absurd h (by simp)
  | some t =>
    rw [hm] at h
    simp only at h
    split at h
    · exact absurd h (by simp)
    case isFalse hws =>
      split at h
      · exact absurd h (by simp)
      case isFalse hds =>
        obtain ⟨hd, hr⟩ : (t.dropWhile isSpc).takeWhile isDigitC = ds ∧
            ((t.dropWhile isSpc).dropWhile isDigitC) = rest := by
          constructor <;> (cases h; rfl)
        obtain ⟨s, hcs, hlow⟩ := matchCI_sound hm
        refine ⟨s, t.takeWhile isSpc, ?_, hlow, ?_, ?_, ?_, ?_⟩
        · rw [hcs]
          have h1 : t.takeWhile isSpc ++ t.dropWhile isSpc = t :=
            List.takeWhile_append_dropWhile ..
          have h2 : (t.dropWhile isSpc).takeWhile isDigitC ++
              (t.dropWhile isSpc).dropWhile isDigitC = t.dropWhile isSpc :=
            List.takeWhile_append_dropWhile ..
          rw [← hd, ← hr]
          simp only [List.append_assoc]
          rw [h2, h1]
        · intro hempty
          rw [← List.isEmpty_iff] at hempty
          exact hws hempty
        · exact fun c hc => List.mem_takeWhile_imp hc
        · intro hempty
          apply hds
          rw [hd, hempty]
          rfl
        · intro c hc
          rw [← hd] at hc
          exact List.mem_takeWhile_imp hc

theorem matchMarker_complete {s w d rest : List Char} (hs : lowerL s = "slide".data)
    (hw : w ≠ []) (hwsp : ∀ c ∈ w, isSpc c = true)
    (hd : d ≠ []) (hdig : ∀ c ∈ d, isDigitC c = true) :
    (matchMarker (s ++ (w ++ (d ++ rest)))).isSome = true := by
  unfold matchMarker
  rw [matchCI_complete hs]
  simp only
  cases d with
  | nil => exact absurd rfl hd
  | cons d0 d' =>
    have hd0 : isDigitC d0 = true := hdig d0 (List.mem_cons_self _ _)
    have htw : (w ++ (d0 :: d' ++ rest)).takeWhile isSpc = w := by
      rw [takeWhile_all_append hwsp]
      simp only [List.cons_append, List.takeWhile_cons, isSpc_false_of_digit hd0]
      simp
    have hdw : (w ++ (d0 :: d' ++ rest)).dropWhile isSpc = d0 :: d' ++ rest := by
      rw [dropWhile_all_append hwsp]
      simp only [List.cons_append, List.dropWhile_cons, isSpc_false_of_digit hd0]
      simp
    rw [htw, hdw]
    have : (w.isEmpty) = false := by
      cases w with
      | nil => exact absurd rfl hw
      | cons _ _ => rfl
    rw [this]
    simp only [Bool.false_eq_true, if_false]
    have htk : (List.takeWhile isDigitC (d0 :: d' ++ rest)).isEmpty = false := by
      simp [List.takeWhile_cons, hd0]
    simp [htk, hd0]

theorem scanSplit_sound {cs pre ds rest : List Char}
    (h : scanSplit cs = some (pre, ds, rest)) :
    ∃ s w, cs = pre ++ s ++ w ++ ds ++ rest ∧ lowerL s = "slide".data ∧
      w ≠ [] ∧ (∀ c ∈ w, isSpc c = true) ∧ ds ≠ [] ∧ (∀ c ∈ ds, isDigitC c = true) := by
  induction cs generalizing pre with
  | nil => simp [scanSplit] at h
  | cons c cs' ih =>
    simp only [scanSplit] at h
    cases hm : matchMarker (c :: cs') with
    | some v =>
      obtain ⟨ds', rest'⟩ := v
      rw [hm] at h
      cases h
      obtain ⟨s, w, hcs, props⟩ := matchMarker_sound hm
      exact ⟨s, w, by simpa using hcs, props⟩
    | none =>
      rw [hm] at h
      cases hsc : scanSplit cs' with
      | none => rw [hsc] at h; exact absurd h (by simp)
      | some v =>
        obtain ⟨pre', ds', rest'⟩ := v
        rw [hsc] at h
        cases h
        obtain ⟨s, w, hcs, props⟩ := ih hsc
        refine ⟨s, w, ?_, props⟩
        rw [List.cons_append, hcs]
        simp [List.append_assoc]

theorem scanSplit_none_suffix {cs : List Char} (h : scanSplit cs = none) :
    ∀ u, u <:+ cs → matchMarker u = none := by
  induction cs with
  | nil =>
    intro u hu
    have : u = [] := List.suffix_nil.mp hu
    subst this
    rfl
  | cons c cs' ih =>
    intro u hu
    simp only [scanSplit] at h
    cases hm : matchMarker (c :: cs') with
    | some v => rw [hm] at h; exact absurd h (by simp)
    | none =>
      rw [hm] at h
      cases hsc : scanSplit cs' with
      | some v => rw [hsc] at h; obtain ⟨a, b, c'⟩ := v; exact absurd h (by simp)
      | none =>
        rcases List.suffix_cons_iff.mp hu with h1 | h1
        · subst h1; exact hm
        · exact ih hsc u h1

/-- The marker-occurrence predicate coincides with success of the marker
scan of the parser. -/
theorem appearsMarker_iff {text : String} :
    appearsMarker text ↔ (scanSplit text.data).isSome = true := by
  constructor
  · rintro ⟨pre, s, w, d, rest, hdec, hlow, hw, hwsp, hd, hdig⟩
    cases hsc : scanSplit text.data with
    | some v => rfl
    | none =>
      exfalso
      have hsuf : (s ++ (w ++ (d ++ rest))) <:+ text.data := by
        refine ⟨pre, ?_⟩
        rw [hdec]
        simp [List.append_assoc]
      have := scanSplit_none_suffix hsc _ hsuf
      have hcomp := @matchMarker_complete s w d rest hlow hw hwsp hd hdig
      rw [this] at hcomp
      simp at hcomp
  · intro h
    cases hsc : scanSplit text.data with
    | none => rw [hsc] at h; simp at h
    | some v =>
      obtain ⟨pre, ds, rest⟩ := v
      obtain ⟨s, w, hcs, hlow, hw, hwsp, hd, hdig⟩ := scanSplit_sound hsc
      exact ⟨pre, s, w, ds, rest, by simpa [List.append_assoc] using hcs, hlow, hw, hwsp, hd, hdig⟩

theorem splitSlides_of_none {cs : List Char} (h : scanSplit cs = none) :
    splitSlides cs = (cs, []) := by
  unfold splitSlides
  cases hl : cs.length with
  | zero => rfl
  | succ n =>
    simp [splitSlidesAux, h]

/-- C6: parseSlideContent is a total function of this embedding — it is
defined on every input string and never raises — and on any input
containing no slide marker it returns the empty sequence. -/
theorem parseSlideContent_no_marker (text : String) (h : ¬ appearsMarker text) :
    parseSlideContent text = [] := by
  have hnone : scanSplit text.data = none := by
    cases hs : scanSplit text.data with
    | none => rfl
    | some v =>
      exfalso
      apply h
      rw [appearsMarker_iff, hs]
      rfl
  unfold parseSlideContent
  rw [splitSlides_of_none hnone]
  rfl

/-- Witness for C6 on a concrete marker-free input. -/
theorem parseSlideContent_no_marker_witness :
    ¬ appearsMarker "hello world" ∧ parseSlideContent "hello world" = [] := by
  have hm : ¬ appearsMarker "hello world" := by
    rw [appearsMarker_iff]
    decide
  exact ⟨hm, parseSlideContent_no_marker _ hm⟩

/-! ## C7: blank prompts fail before any external call -/

theorem processSlide_blank {p : String} (hp : jsTrim p = "") (s : SlideContent)
    (api : String → GenResponse) (w : Option String) (t : Nat) :
    processSlide p s api w t =
      ⟨s.slideNumber, none, .failed, none,
        some "Prompt is required. Please provide a prompt in the remaining images prompt box."⟩ := by
  unfold processSlide processSlideE
  have hc : (decide (p = "") || decide (jsTrim p = "")) = true := by
    rw [hp]
    simp
  rw [if_pos hc]

theorem runSlides_blank {p : String} (hp : jsTrim p = "") (env env' : StageCEnv) :
    ∀ (slides : List SlideContent) (i j : Nat),
      runSlides p env slides i = runSlides p env' slides j := by
  intro slides
  induction slides with
  | nil => intro i j; rfl
  | cons s rest ih =>
    intro i j
    unfold runSlides
    rw [ih (i + 1) (j + 1), processSlide_blank hp, processSlide_blank hp]

theorem runSlides_length (p : String) (env : StageCEnv) :
    ∀ (slides : List SlideContent) (i : Nat), (runSlides p env slides i).length = slides.length := by
  intro slides
  induction slides with
  | nil => intro i; rfl
  | cons s rest ih =>
    intro i
    unfold runSlides
    simp [ih (i + 1)]

/-- C7: a request whose prompt template is blank after trimming fails its
unit of work with a validation message and no external call is consulted:
the content stage and the first-image stage return the validation error
whatever the external response, write outcome and clock; the
remaining-images stage is insensitive to its whole environment apart from
the reference check, and when its own top-level preconditions hold it
reports every slide failed with the usage message (its outer call still
returning the per-item results). -/
theorem blank_prompt_no_call (p : String) (hp : jsTrim p = "") :
    (∀ (t : String) (api api' : String → GenResponse),
      generateContent p t api = generateContent p t api' ∧
      ∃ m, generateContent p t api = .error m ∧
        (m = "Transcript is required" ∨ m = "Prompt is required")) ∧
    (∀ (h e : String) (sn : Nat) (api api' : String → GenResponse)
        (w w' : Option String) (ts ts' : Nat),
      generateFirstImage p h e sn api w ts = generateFirstImage p h e sn api' w' ts' ∧
      ∃ m, generateFirstImage p h e sn api w ts = .error m ∧
        (m = "Heading and explanation are required" ∨
          m = "Prompt is required. Please provide a prompt in the first image prompt box.")) ∧
    (∀ (slides : List SlideContent) (url : String) (env env' : StageCEnv),
      env.refExists = env'.refExists →
        generateRemainingImages p slides url env = generateRemainingImages p slides url env') ∧
    (∀ (slides : List SlideContent) (url : String) (env : StageCEnv),
      slides ≠ [] → url ≠ "" → env.refExists = true →
      ∃ rs, generateRemainingImages p slides url env = .ok rs ∧
        rs.length = slides.length ∧
        ∀ r ∈ rs, r.status = .failed ∧ r.imageUrl = none ∧
          r.error =
            some "Prompt is required. Please provide a prompt in the remaining images prompt box.") := by
  have hc : (decide (p = "") || decide (jsTrim p = "")) = true := by
    rw [hp]
    simp
  refine ⟨?_, ?_, ?_, ?_⟩
  · intro t api api'
    unfold generateContent
    by_cases ht : t = ""
    · rw [if_pos ht, if_pos ht]
      exact ⟨rfl, "Transcript is required", rfl, Or.inl rfl⟩
    · rw [if_neg ht, if_neg ht, if_pos hc, if_pos hc]
      exact ⟨rfl, "Prompt is required", rfl, Or.inr rfl⟩
  · intro h e sn api api' w w' ts ts'
    unfold generateFirstImage
    by_cases hhe : (decide (h = "") || decide (e = "")) = true
    · rw [if_pos hhe, if_pos hhe]
      exact ⟨rfl, "Heading and explanation are required", rfl, Or.inl rfl⟩
    · rw [if_neg hhe, if_neg hhe, if_pos hc, if_pos hc]
      exact ⟨rfl, _, rfl, Or.inr rfl⟩
  · intro slides url env env' henv
    unfold generateRemainingImages
    by_cases hse : slides.isEmpty = true
    · rw [if_pos hse, if_pos hse]
    · rw [if_neg hse, if_neg hse]
      by_cases hu : url = ""
      · rw [if_pos hu, if_pos hu]
      · rw [if_neg hu, if_neg hu]
        by_cases hre : (!env.refExists) = true
        · rw [if_pos hre, if_pos (henv ▸ hre)]
        · rw [if_neg hre, if_neg (henv ▸ hre)]
          rw [runSlides_blank hp env env' slides 0 0]
  · intro slides url env hs hu hr
    refine ⟨runSlides p env slides 0, ?_, runSlides_length p env slides 0, ?_⟩
    · unfold generateRemainingImages
      have hse : slides.isEmpty = false := by
        cases slides with
        | nil => exact absurd rfl hs
        | cons _ _ => rfl
      rw [if_neg (by simp [hse]), if_neg hu, if_neg (by simp [hr])]
    · have hmem : ∀ (sl : List SlideContent) (i : Nat), ∀ r ∈ runSlides p env sl i,
          r.status = .failed ∧ r.imageUrl = none ∧
          r.error =
            some "Prompt is required. Please provide a prompt in the remaining images prompt box." := by
        intro sl
        induction sl with
        | nil => intro i r hrm; simp [runSlides] at hrm
        | cons s rest ih =>
          intro i r hrm
          unfold runSlides at hrm
          rw [processSlide_blank hp] at hrm
          rcases List.mem_cons.mp hrm with h1 | h1
          · subst h1
            exact ⟨rfl, rfl, rfl⟩
          · exact ih (i + 1) r h1
      exact hmem slides 0

/-- Witness for C7 at a concrete blank prompt. -/
theorem blank_prompt_no_call_witness :
    jsTrim "   " = "" ∧
    (∃ m, generateContent "   " "T" (fun _ => okResp) = .error m ∧
      (m = "Transcript is required" ∨ m = "Prompt is required")) ∧
    (∃ rs, generateRemainingImages "   " [⟨1, "a", "b"⟩] "/u"
        ⟨true, fun _ _ => okResp, fun _ => none, fun _ => 0⟩ = .ok rs ∧
      rs.length = [(⟨1, "a", "b"⟩ : SlideContent)].length ∧
      ∀ r ∈ rs, r.status = .failed ∧ r.imageUrl = none ∧
        r.error =
          some "Prompt is required. Please provide a prompt in the remaining images prompt box.") := by
  have hp : jsTrim "   " = "" := by decide
  refine ⟨hp, ?_, ?_⟩
  · exact ((blank_prompt_no_call "   " hp).1 "T" (fun _ => okResp) (fun _ => okResp)).2
  · exact (blank_prompt_no_call "   " hp).2.2.2 [⟨1, "a", "b"⟩] "/u"
      ⟨true, fun _ _ => okResp, fun _ => none, fun _ => 0⟩ (by simp) (by simp) rfl

/-! ## C1: per-slide isolation of the remaining-images stage -/

theorem stageCPartsOf_eq {r : GenResponse} {cand : Candidate} {tail : List Candidate}
    (h : r.candidates = some (cand :: tail)) :
    stageCPartsOf r =
      (match cand.content with
       | some body => body.parts.getD []
       | none => []) := by
  unfold stageCPartsOf
  rw [h]

theorem findImageData_none_iff {ps : List Part} :
    findImageData ps = none ↔ ¬ ∃ p ∈ ps, viablePart p = true := by
  unfold findImageData
  cases hf : ps.find? viablePart with
  | none =>
    simp only [true_iff]
    rintro ⟨pt, hpt, hv⟩
    exact (List.find?_eq_none.mp hf pt hpt) hv
  | some pt =>
    have hv := List.find?_some hf
    have hmem := List.mem_of_find?_eq_some hf
    obtain ⟨d, hd, hds⟩ : ∃ d, pt.inlineData = some d ∧ d.data.isSome = true := by
      unfold viablePart at hv
      cases hid : pt.inlineData with
      | none => rw [hid] at hv; simp at hv
      | some d =>
        rw [hid] at hv
        simp only [Bool.and_eq_true] at hv
        refine ⟨d, rfl, ?_⟩
        have hdat := hv.2.2
        cases hdd : d.data with
        | none => rw [hdd] at hdat; simp at hdat
        | some s => rfl
    show pt.inlineData.bind InlineData.data = none ↔ _
    rw [hd]
    simp only [Option.some_bind]
    constructor
    · intro hnone
      rw [hnone] at hds
      simp at hds
    · intro hno
      exact absurd ⟨pt, hmem, hv⟩ hno

theorem processSlide_spec (p : String) (s : SlideContent) (api : String → GenResponse)
    (w : Option String) (t : Nat) :
    (processSlide p s api w t).slideNumber = s.slideNumber ∧
    (slideFails p (api (imageGuard (substituteHE p s.heading s.explanation))) w →
      processSlide p s api w t = ⟨s.slideNumber, none, .failed, none,
        some (slideFailMsg p (api (imageGuard (substituteHE p s.heading s.explanation))) w)⟩) ∧
    (¬ slideFails p (api (imageGuard (substituteHE p s.heading s.explanation))) w →
      processSlide p s api w t = ⟨s.slideNumber,
        some (mkImageUrl s.slideNumber t), .completed,
        some (tokensOf (api (imageGuard (substituteHE p s.heading s.explanation)))), none⟩) := by
  by_cases hp : jsTrim p = ""
  · have h1 := processSlide_blank hp s api w t
    refine ⟨by rw [h1], fun _ => ?_, fun hnf => absurd (Or.inl hp) hnf⟩
    rw [h1]
    unfold slideFailMsg
    rw [if_pos hp]
  · have hc : (decide (p = "") || decide (jsTrim p = "")) = false := by
      have hpe : ¬ p = "" := by
        intro hh
        apply hp
        rw [hh]
        rfl
      simp [hpe, hp]
    have hstep : processSlide p s api w t =
        (match processSlideE p s api w t with
         | .ok (url, tok) => ⟨s.slideNumber, some url, .completed, some tok, none⟩
         | .error m => ⟨s.slideNumber, none, .failed, none, some m⟩) := rfl
    cases hcand : (api (imageGuard (substituteHE p s.heading s.explanation))).candidates with
    | none =>
      have hE : processSlideE p s api w t = .error "No candidates in response" := by
        unfold processSlideE
        rw [if_neg (by simp [hc])]
        simp only [hcand]
      have hrec : processSlide p s api w t =
          ⟨s.slideNumber, none, .failed, none, some "No candidates in response"⟩ := by
        rw [hstep, hE]
      have hfail : slideFails p (api (imageGuard (substituteHE p s.heading s.explanation))) w :=
        Or.inr (Or.inl (by rw [hcand]; rfl))
      refine ⟨by rw [hrec], fun _ => ?_, fun hnf => absurd hfail hnf⟩
      rw [hrec]
      unfold slideFailMsg
      rw [if_neg hp, if_pos (by rw [hcand]; rfl)]
    | some cands =>
      cases cands with
      | nil =>
        have hE : processSlideE p s api w t = .error "No candidates in response" := by
          unfold processSlideE
          rw [if_neg (by simp [hc])]
          simp only [hcand]
        have hrec : processSlide p s api w t =
            ⟨s.slideNumber, none, .failed, none, some "No candidates in response"⟩ := by
          rw [hstep, hE]
        have hfail : slideFails p (api (imageGuard (substituteHE p s.heading s.explanation))) w :=
          Or.inr (Or.inl (by rw [hcand]; rfl))
        refine ⟨by rw [hrec], fun _ => ?_, fun hnf => absurd hfail hnf⟩
        rw [hrec]
        unfold slideFailMsg
        rw [if_neg hp, if_pos (by rw [hcand]; rfl)]
      | cons cand tail =>
        have hparts : stageCPartsOf (api (imageGuard (substituteHE p s.heading s.explanation))) =
            (match cand.content with
             | some body => body.parts.getD []
             | none => []) := stageCPartsOf_eq hcand
        have hgetd : ((api (imageGuard
            (substituteHE p s.heading s.explanation))).candidates.getD []) = cand :: tail := by
          rw [hcand]
          rfl
        cases hfind : findImageData
            (match cand.content with
             | some body => body.parts.getD []
             | none => []) with
        | none =>
          have hE : processSlideE p s api w t = .error "No image data found" := by
            unfold processSlideE
            rw [if_neg (by simp [hc])]
            simp only [hcand, hfind]
          have hrec : processSlide p s api w t =
              ⟨s.slideNumber, none, .failed, none, some "No image data found"⟩ := by
            rw [hstep, hE]
          have hfail : slideFails p
              (api (imageGuard (substituteHE p s.heading s.explanation))) w := by
            refine Or.inr (Or.inr (Or.inl ?_))
            rw [← hparts] at hfind
            exact findImageData_none_iff.mp hfind
          refine ⟨by rw [hrec], fun _ => ?_, fun hnf => absurd hfail hnf⟩
          rw [hrec]
          unfold slideFailMsg
          rw [if_neg hp, if_neg (by rw [hgetd]; simp), if_pos (by rw [hparts, hfind])]
        | some img =>
          cases w with
          | some m =>
            have hE : processSlideE p s api (some m) t = .error m := by
              unfold processSlideE
              rw [if_neg (by simp [hc])]
              simp only [hcand, hfind]
            have hrec : processSlide p s api (some m) t =
                ⟨s.slideNumber, none, .failed, none, some m⟩ := by
              rw [hstep, hE]
            have hfail : slideFails p
                (api (imageGuard (substituteHE p s.heading s.explanation))) (some m) :=
              Or.inr (Or.inr (Or.inr (by simp)))
            refine ⟨by rw [hrec], fun _ => ?_, fun hnf => absurd hfail hnf⟩
            rw [hrec]
            unfold slideFailMsg
            rw [if_neg hp, if_neg (by rw [hgetd]; simp),
              if_neg (by rw [hparts, hfind]; simp)]
            rfl
          | none =>
            have hE : processSlideE p s api none t = .ok (mkImageUrl s.slideNumber t,
                tokensOf (api (imageGuard (substituteHE p s.heading s.explanation)))) := by
              unfold processSlideE
              rw [if_neg (by simp [hc])]
              simp only [hcand, hfind]
            have hrec : processSlide p s api none t = ⟨s.slideNumber,
                some (mkImageUrl s.slideNumber t), .completed,
                some (tokensOf (api (imageGuard (substituteHE p s.heading s.explanation)))),
                none⟩ := by
              rw [hstep, hE]
            have hnofail : ¬ slideFails p
                (api (imageGuard (substituteHE p s.heading s.explanation))) none := by
              rintro (hf | hf | hf | hf)
              · exact hp hf
              · rw [hgetd] at hf
                simp at hf
              · rw [← hparts] at hfind
                rw [← findImageData_none_iff] at hf
                rw [hf] at hfind
                simp at hfind
              · exact hf rfl
            exact ⟨by rw [hrec], fun hf => absurd hf hnofail, fun _ => hrec⟩

theorem runSlides_get (p : String) (env : StageCEnv) :
    ∀ (slides : List SlideContent) (i0 i : Nat) (s : SlideContent) (r : GenerationResult),
      slides[i]? = some s → (runSlides p env slides i0)[i]? = some r →
      r = processSlide p s (env.api (i0 + i)) (env.writeErr (i0 + i)) (env.time (i0 + i)) := by
  intro slides
  induction slides with
  | nil => intro i0 i s r hs; simp at hs
  | cons s0 rest ih =>
    intro i0 i s r hs hr
    cases i with
    | zero =>
      simp only [List.getElem?_cons_zero, Option.some.injEq] at hs
      unfold runSlides at hr
      simp only [List.getElem?_cons_zero, Option.some.injEq] at hr
      subst hs
      rw [← hr]
      norm_num
    | succ i' =>
      simp only [List.getElem?_cons_succ] at hs
      unfold runSlides at hr
      simp only [List.getElem?_cons_succ] at hr
      have heq : i0 + 1 + i' = i0 + (i' + 1) := by omega
      have hres := ih (i0 + 1) i' s r hs hr
      rw [heq] at hres
      exact hres

/-- C1: with a nonempty slides list, a reference URL and an existing
reference file, the remaining-images handler succeeds at the outer level
and returns one result per input slide in input order, carrying that
slide's number; an iteration with any per-slide failure cause — missing
prompt, no candidates, no image-bearing part, write failure — yields status
failed with the corresponding message and no URL without aborting the loop,
and every other iteration yields status completed with the written file's
URL. -/
theorem stageC_isolation (prompt : String) (slides : List SlideContent) (url : String)
    (env : StageCEnv) (hs : slides ≠ []) (hu : url ≠ "") (hr : env.refExists = true) :
    ∃ rs, generateRemainingImages prompt slides url env = .ok rs ∧
      rs.length = slides.length ∧
      ∀ (i : Nat) (s : SlideContent) (r : GenerationResult),
        slides[i]? = some s → rs[i]? = some r →
        r.slideNumber = s.slideNumber ∧
        (slideFails prompt
            (env.api i (imageGuard (substituteHE prompt s.heading s.explanation)))
            (env.writeErr i) →
          r.status = .failed ∧ r.imageUrl = none ∧
          r.error = some (slideFailMsg prompt
            (env.api i (imageGuard (substituteHE prompt s.heading s.explanation)))
            (env.writeErr i))) ∧
        (¬ slideFails prompt
            (env.api i (imageGuard (substituteHE prompt s.heading s.explanation)))
            (env.writeErr i) →
          r.status = .completed ∧ r.error = none ∧
          r.imageUrl = some (mkImageUrl s.slideNumber (env.time i))) := by
  refine ⟨runSlides prompt env slides 0, ?_, runSlides_length prompt env slides 0, ?_⟩
  · unfold generateRemainingImages
    have hse : slides.isEmpty = false := by
      cases slides with
      | nil => exact absurd rfl hs
      | cons _ _ => rfl
    rw [if_neg (by simp [hse]), if_neg hu, if_neg (by simp [hr])]
  · intro i s r hsi hri
    have hre := runSlides_get prompt env slides 0 i s r hsi hri
    rw [Nat.zero_add] at hre
    subst hre
    obtain ⟨hnum, hfailed, hcompleted⟩ :=
      processSlide_spec prompt s (env.api i) (env.writeErr i) (env.time i)
    refine ⟨hnum, fun hf => ?_, fun hnf => ?_⟩
    · rw [hfailed hf]
      exact ⟨rfl, rfl, rfl⟩
    · rw [hcompleted hnf]
      exact ⟨rfl, rfl, rfl⟩

/-- Witness for C1: a two-slide batch where the first iteration succeeds
and the second gets a response with no candidates, producing one completed
and one failed result under a succeeding outer call. -/
theorem stageC_isolation_witness :
    ([(⟨1, "a", "b"⟩ : SlideContent), ⟨2, "c", "d"⟩] ≠ []) ∧
    ("/u" : String) ≠ "" ∧
    (∃ rs, generateRemainingImages "make an image" [⟨1, "a", "b"⟩, ⟨2, "c", "d"⟩] "/u"
        ⟨true, fun i _ => if i = 0 then okResp else emptyResp, fun _ => none, fun _ => 7⟩ =
          .ok rs ∧
      rs.length = [(⟨1, "a", "b"⟩ : SlideContent), ⟨2, "c", "d"⟩].length ∧
      ∀ (i : Nat) (s : SlideContent) (r : GenerationResult),
        [(⟨1, "a", "b"⟩ : SlideContent), ⟨2, "c", "d"⟩][i]? = some s → rs[i]? = some r →
        r.slideNumber = s.slideNumber ∧
        (slideFails "make an image"
            ((fun (i : Nat) (_ : String) => if i = 0 then okResp else emptyResp) i
              (imageGuard (substituteHE "make an image" s.heading s.explanation)))
            none →
          r.status = .failed ∧ r.imageUrl = none ∧
          r.error = some (slideFailMsg "make an image"
            ((fun (i : Nat) (_ : String) => if i = 0 then okResp else emptyResp) i
              (imageGuard (substituteHE "make an image" s.heading s.explanation)))
            none)) ∧
        (¬ slideFails "make an image"
            ((fun (i : Nat) (_ : String) => if i = 0 then okResp else emptyResp) i
              (imageGuard (substituteHE "make an image" s.heading s.explanation)))
            none →
          r.status = .completed ∧ r.error = none ∧
          r.imageUrl = some (mkImageUrl s.slideNumber 7))) := by
  refine ⟨by simp, by simp, ?_⟩
  exact stageC_isolation "make an image" [⟨1, "a", "b"⟩, ⟨2, "c", "d"⟩] "/u"
    ⟨true, fun i _ => if i = 0 then okResp else emptyResp, fun _ => none, fun _ => 7⟩
    (by simp) (by simp) rfl

/-! ## C4: parsing a text of exactly two well-formed blocks

The generic lemmas below characterise the scanners on concatenations whose
pieces satisfy the goodField conditions, leading to the computation of
parseSlideContent on mkTwoSlideText. -/

theorem goodField_spec {s : String} (hg : goodField s = true) :
    s.data ≠ [] ∧ (∀ c ∈ s.data, ¬ c = '\n') ∧
    (∀ c, s.data.head? = some c → isSpc c = false) ∧
    (∀ c, s.data.getLast? = some c → isSpc c = false) ∧
    containsL "slide".data (lowerL s.data) = false ∧
    containsL "heading:".data (lowerL s.data) = false ∧
    containsL "explanation:".data (lowerL s.data) = false ∧
    containsL "**".data s.data = false ∧
    containsL "__".data s.data = false := by
  unfold goodField hasSubCI at hg
  simp only [Bool.and_eq_true, Bool.not_eq_true', List.isEmpty_eq_false] at hg
  obtain ⟨⟨⟨⟨⟨⟨⟨⟨hne, hall⟩, hhd⟩, hlt⟩, hsl⟩, hhl⟩, hel⟩, hst⟩, hun⟩ := hg
  refine ⟨hne, ?_, ?_, ?_, hsl, hhl, hel, hst, hun⟩
  · intro c hc
    have := List.all_eq_true.mp hall c hc
    simpa using this
  · intro c hc
    rw [hc] at hhd
    simpa using hhd
  · intro c hc
    rw [hc] at hlt
    simpa using hlt

theorem dropWhile_eq_self_of_head {cs : List Char} {p : Char → Bool}
    (h : ∀ c, cs.head? = some c → p c = false) : cs.dropWhile p = cs := by
  cases cs with
  | nil => rfl
  | cons c t =>
    have := h c rfl
    simp [List.dropWhile_cons, this]

theorem jsTrimL_id {cs : List Char}
    (h1 : ∀ c, cs.head? = some c → isSpc c = false)
    (h2 : ∀ c, cs.getLast? = some c → isSpc c = false) : jsTrimL cs = cs := by
  unfold jsTrimL
  rw [dropWhile_eq_self_of_head h1]
  rw [dropWhile_eq_self_of_head ?_, List.reverse_reverse]
  intro c hc
  rw [List.head?_reverse] at hc
  exact h2 c hc

theorem jsTrimL_append_nl {cs : List Char} (hne : cs ≠ [])
    (h1 : ∀ c, cs.head? = some c → isSpc c = false)
    (h2 : ∀ c, cs.getLast? = some c → isSpc c = false) :
    jsTrimL (cs ++ ['\n']) = cs := by
  unfold jsTrimL
  have hd : (cs ++ ['\n']).dropWhile isSpc = cs ++ ['\n'] := by
    apply dropWhile_eq_self_of_head
    intro c hc
    cases cs with
    | nil => exact absurd rfl hne
    | cons c0 t =>
      simp only [List.cons_append, List.head?_cons, Option.some.injEq] at hc
      subst hc
      exact h1 c0 rfl
  rw [hd, List.reverse_append]
  show ((['\n'].reverse ++ cs.reverse).dropWhile isSpc).reverse = cs
  have : (['\n'] : List Char).reverse = ['\n'] := rfl
  rw [this]
  show (('\n' :: cs.reverse).dropWhile isSpc).reverse = cs
  rw [List.dropWhile_cons]
  have : isSpc '\n' = true := rfl
  rw [this]
  simp only [if_true]
  rw [dropWhile_eq_self_of_head ?_, List.reverse_reverse]
  intro c hc
  rw [List.head?_reverse] at hc
  exact h2 c hc

theorem removePairs_id {a b : Char} {cs : List Char}
    (h : containsL [a, b] cs = false) : removePairs a b cs = cs := by
  induction cs with
  | nil => rfl
  | cons x t ih =>
    cases t with
    | nil => rfl
    | cons y rest =>
      rw [show containsL [a, b] (x :: y :: rest) =
          (startsWithL [a, b] (x :: y :: rest) || containsL [a, b] (y :: rest)) from rfl,
        Bool.or_eq_false_iff] at h
      unfold removePairs
      have hcond : (decide (x = a) && decide (y = b)) = false := by
        cases hxa : decide (x = a) with
        | false => rfl
        | true =>
          cases hyb : decide (y = b) with
          | false => simp
          | true =>
            exfalso
            have hx := of_decide_eq_true hxa
            have hy := of_decide_eq_true hyb
            subst hx
            subst hy
            have := h.1
            simp [startsWithL] at this
      rw [if_neg (by simp [hcond])]
      rw [ih h.2]

theorem stripEmphasis_id {cs : List Char}
    (h1 : containsL "**".data cs = false) (h2 : containsL "__".data cs = false) :
    stripEmphasis cs = cs := by
  unfold stripEmphasis
  have e1 : removePairs '*' '*' cs = cs := removePairs_id h1
  rw [e1]
  exact removePairs_id h2

theorem infix_append_cases {t a b : List Char} (h : t <:+: a ++ b) :
    t <:+: a ∨ t <:+: b ∨
      ∃ t1 t2, t1 ++ t2 = t ∧ t1 ≠ [] ∧ t2 ≠ [] ∧ t1 <:+ a ∧ t2 <+: b := by
  obtain ⟨s, u, hsu⟩ := h
  by_cases hsa : a.length ≤ s.length
  · right
    left
    obtain ⟨s', hs'⟩ : ∃ s', s = a ++ s' := by
      have hpre : a <+: s := by
        have : a <+: s ++ t ++ u := by rw [hsu]; exact ⟨b, rfl⟩
        rw [List.append_assoc] at this
        exact (List.isPrefix_append_of_length hsa).mp this
      obtain ⟨w, hw⟩ := hpre
      exact ⟨w, hw.symm⟩
    refine ⟨s', u, ?_⟩
    subst hs'
    have : a ++ s' ++ t ++ u = a ++ (s' ++ t ++ u) := by simp [List.append_assoc]
    rw [this] at hsu
    exact List.append_cancel_left hsu
  · push_neg at hsa
    by_cases hta : s.length + t.length ≤ a.length
    · left
      have hpre : s ++ t <+: a := by
        have h1 : s ++ t <+: a ++ b := by
          refine ⟨u, ?_⟩
          rw [← hsu]
        rw [← List.length_append] at hta
        exact (List.isPrefix_append_of_length hta).mp h1
      obtain ⟨w, hw⟩ := hpre
      exact ⟨s, w, by rw [← hw]⟩
    · push_neg at hta
      right
      right
      have ha_len : a.length = s.length + (a.length - s.length) := by omega
      have hk_le : a.length - s.length ≤ t.length := by omega
      refine ⟨t.take (a.length - s.length), t.drop (a.length - s.length),
        List.take_append_drop _ _, ?_, ?_, ?_, ?_⟩
      · intro htake
        have := congrArg List.length htake
        simp only [List.length_take] at this
        simp only [List.length] at this
        omega
      · intro hdrop
        have := congrArg List.length hdrop
        simp only [List.length_drop] at this
        simp only [List.length] at this
        omega
      · refine ⟨s, ?_⟩
        have ha : a = s ++ t.take (a.length - s.length) := by
          have h0 : a = (a ++ b).take a.length := by rw [List.take_left]
          rw [← hsu] at h0
          rw [List.append_assoc] at h0
          rw [ha_len] at h0
          rw [List.take_append] at h0
          rw [List.take_append_of_le_length hk_le] at h0
          exact h0
        rw [← ha]
      · refine ⟨u, ?_⟩
        have hb : b = t.drop (a.length - s.length) ++ u := by
          have h0 : b = (a ++ b).drop a.length := by rw [List.drop_left]
          rw [← hsu] at h0
          rw [List.append_assoc] at h0
          conv at h0 => rw [ha_len]
          rw [List.drop_append] at h0
          rw [List.drop_append_of_le_length hk_le] at h0
          exact h0
        rw [← hb]

theorem suffix_getLast? {u A : List Char} (h : u <:+ A) (hne : u ≠ []) :
    u.getLast? = A.getLast? := by
  obtain ⟨w, rfl⟩ := h
  exact (List.getLast?_append_of_ne_nil w hne).symm

theorem infix_map {f : Char → Char} {t u : List Char} (h : t <:+: u) :
    t.map f <:+: u.map f := by
  obtain ⟨s, r, rfl⟩ := h
  exact ⟨s.map f, r.map f, by simp [List.map_append]⟩

theorem straddle_nl {t t1 t2 b : List Char} (ht : t1 ++ t2 = t) (h2 : t2 ≠ [])
    (hp : t2 <+: '\n' :: b) (hnl : ('\n' : Char) ∉ t) : False := by
  cases t2 with
  | nil => exact h2 rfl
  | cons c t2' =>
    obtain ⟨w, hw⟩ := hp
    simp only [List.cons_append, List.cons.injEq] at hw
    apply hnl
    rw [← ht, hw.1]
    exact List.mem_append.mpr (Or.inr (List.mem_cons_self _ _))

theorem straddle_fixed {t t1 t2 A : List Char} (ht : t1 ++ t2 = t) (h1 : t1 ≠ [])
    (h2 : t2 ≠ []) (hsuf : t1 <:+ A)
    (hchk : ∀ n, n < t.length → 0 < n → ¬ (t.take n) <:+ A) : False := by
  have htake : t.take t1.length = t1 := by rw [← ht, List.take_left]
  have hlen : t1.length + t2.length = t.length := by rw [← ht, List.length_append]
  have hlt : t1.length < t.length := by
    have := List.length_pos.mpr h2
    omega
  have hpos : 0 < t1.length := List.length_pos.mpr h1
  apply hchk t1.length hlt hpos
  rw [htake]
  exact hsuf

theorem containsL_append_false {t a b : List Char}
    (ha : containsL t a = false) (hb : containsL t b = false)
    (hstr : ∀ t1 t2, t1 ++ t2 = t → t1 ≠ [] → t2 ≠ [] → t1 <:+ a → t2 <+: b → False) :
    containsL t (a ++ b) = false := by
  rw [containsL_false_iff] at ha hb ⊢
  intro hinf
  rcases infix_append_cases hinf with h | h | ⟨t1, t2, ht, h1, h2, hsa, hpb⟩
  · exact ha h
  · exact hb h
  · exact hstr t1 t2 ht h1 h2 hsa hpb

theorem containsL_cons_false {t : List Char} {c : Char} {w : List Char}
    (hs : startsWithL t (c :: w) = false) (hw : containsL t w = false) :
    containsL t (c :: w) = false := by
  show (startsWithL t (c :: w) || containsL t w) = false
  rw [hs, hw]
  rfl

theorem prefix_cross_nl {pat pre v' r : List Char} (hpre : pre <+: v' ++ '\n' :: r)
    (hlen : v'.length < pre.length) (hnl : ('\n' : Char) ∉ pat)
    (hlow : lowerL pre = pat) : False := by
  obtain ⟨k, hk⟩ : ∃ k, pre.length = v'.length + (k + 1) :=
    ⟨pre.length - v'.length - 1, by omega⟩
  have h1 : pre = (v' ++ '\n' :: r).take pre.length := List.prefix_iff_eq_take.mp hpre
  rw [hk, List.take_append, List.take_succ_cons] at h1
  have hmem : ('\n' : Char) ∈ pre := by
    rw [h1]
    exact List.mem_append.mpr (Or.inr (List.mem_cons_self _ _))
  have h5 : Char.toLower '\n' ∈ lowerL pre := List.mem_map_of_mem _ hmem
  rw [hlow] at h5
  have h6 : Char.toLower '\n' = '\n' := rfl
  rw [h6] at h5
  exact hnl h5

theorem matchCI_none_of_noCI {pat cs u : List Char} (hu : u <:+ cs)
    (hno : containsL pat (lowerL cs) = false) : matchCI pat u = none := by
  cases hm : matchCI pat u with
  | none => rfl
  | some t =>
    exfalso
    obtain ⟨pre, hpre, hlow⟩ := matchCI_sound hm
    rw [containsL_false_iff] at hno
    apply hno
    rw [← hlow]
    apply infix_map
    obtain ⟨w, hw⟩ := hu
    exact ⟨w, t, by rw [List.append_assoc, ← hpre, hw]⟩

theorem matchCI_none_at_boundary {pat A B a' : List Char}
    (ha : a' <:+ A) (hne : a' ≠ []) (hlast : A.getLast? = some '\n')
    (hnl : ('\n' : Char) ∉ pat)
    (hnoA : containsL pat (lowerL A) = false) :
    matchCI pat (a' ++ B) = none := by
  cases hm : matchCI pat (a' ++ B) with
  | none => rfl
  | some t =>
    exfalso
    obtain ⟨pre, hpre, hlow⟩ := matchCI_sound hm
    have hpre2 : pre <+: a' ++ B := ⟨t, hpre.symm⟩
    by_cases hl : pre.length ≤ a'.length
    · have h1 : pre <+: a' := (List.isPrefix_append_of_length hl).mp hpre2
      rw [containsL_false_iff] at hnoA
      apply hnoA
      rw [← hlow]
      apply infix_map
      obtain ⟨w1, hw1⟩ := h1
      obtain ⟨w2, hw2⟩ := ha
      exact ⟨w2, w1, by rw [List.append_assoc, hw1, hw2]⟩
    · push_neg at hl
      have hlast' : a'.getLast? = some '\n' := by
        rw [suffix_getLast? ha hne]
        exact hlast
      have hmem : ('\n' : Char) ∈ a' := List.mem_of_mem_getLast? hlast'
      have e1 : pre = (a' ++ B).take pre.length := List.prefix_iff_eq_take.mp hpre2
      have e3 : pre.take a'.length = a' := by
        rw [e1, List.take_take]
        have hmin : min a'.length pre.length = a'.length := by omega
        rw [hmin, List.take_left]
      have hmem2 : ('\n' : Char) ∈ pre := by
        have hsub : a' <+: pre := by
          rw [← e3]
          exact List.take_prefix _ _
        obtain ⟨w, hw⟩ := hsub
        rw [← hw]
        exact List.mem_append.mpr (Or.inl hmem)
      have h5 : Char.toLower '\n' ∈ lowerL pre := List.mem_map_of_mem _ hmem2
      rw [hlow] at h5
      have h6 : Char.toLower '\n' = '\n' := rfl
      rw [h6] at h5
      exact hnl h5

theorem findFirst_none_of {f : List Char → Option (List Char)} {cs : List Char}
    (h : ∀ u, u <:+ cs → f u = none) : findFirst f cs = none := by
  induction cs with
  | nil => exact h [] ⟨[], rfl⟩
  | cons c cs' ih =>
    show (match f (c :: cs') with
      | some r => some r
      | none => findFirst f cs') = none
    rw [h (c :: cs') ⟨[], rfl⟩]
    exact ih (fun u hu => h u (by obtain ⟨w, rfl⟩ := hu; exact ⟨c :: w, rfl⟩))

theorem findFirst_append {f : List Char → Option (List Char)} {a b : List Char}
    (h : ∀ a', a' <:+ a → a' ≠ [] → f (a' ++ b) = none) :
    findFirst f (a ++ b) = findFirst f b := by
  induction a with
  | nil => rfl
  | cons c a' ih =>
    show (match f ((c :: a') ++ b) with
      | some r => some r
      | none => findFirst f (a' ++ b)) = findFirst f b
    rw [h (c :: a') ⟨[], rfl⟩ (by simp)]
    exact ih (fun u hu hne => h u (by obtain ⟨w, rfl⟩ := hu; exact ⟨c :: w, rfl⟩) hne)

theorem matchMarker_none_of_matchCI {u : List Char}
    (h : matchCI "slide".data u = none) : matchMarker u = none := by
  unfold matchMarker
  rw [h]

theorem scanSplit_none_of {cs : List Char} (h : ∀ u, u <:+ cs → matchMarker u = none) :
    scanSplit cs = none := by
  induction cs with
  | nil => rfl
  | cons c cs' ih =>
    have h1 : matchMarker (c :: cs') = none := h _ ⟨[], rfl⟩
    have h2 : scanSplit cs' = none :=
      ih (fun u hu => h u (by obtain ⟨w, rfl⟩ := hu; exact ⟨c :: w, rfl⟩))
    simp [scanSplit, h1, h2]

theorem scanSplit_append_sk {a b : List Char}
    (h : ∀ a', a' <:+ a → a' ≠ [] → matchMarker (a' ++ b) = none) :
    scanSplit (a ++ b) = (scanSplit b).map (fun v => (a ++ v.1, v.2.1, v.2.2)) := by
  induction a with
  | nil =>
    simp only [List.nil_append]
    cases hb : scanSplit b with
    | none => rfl
    | some v =>
      obtain ⟨p, d, r⟩ := v
      rfl
  | cons c a' ih =>
    have h1 : matchMarker (c :: (a' ++ b)) = none := h (c :: a') ⟨[], rfl⟩ (by simp)
    have ih2 := ih (fun u hu hne => h u (by obtain ⟨w, rfl⟩ := hu; exact ⟨c :: w, rfl⟩) hne)
    show scanSplit (c :: (a' ++ b)) = _
    simp only [scanSplit, h1]
    rw [ih2]
    cases scanSplit b with
    | none => rfl
    | some v =>
      obtain ⟨p, d, r⟩ := v
      rfl

theorem scanSplit_length {cs pre ds rest : List Char}
    (h : scanSplit cs = some (pre, ds, rest)) : rest.length < cs.length := by
  obtain ⟨s, w, hcs, hlow, hw, _, hds, _⟩ := scanSplit_sound h
  have hslen : s.length = 5 := by
    have := congrArg List.length hlow
    simpa [lowerL] using this
  have hwpos : 0 < w.length := List.length_pos.mpr hw
  have := congrArg List.length hcs
  simp only [List.length_append] at this
  omega

theorem splitSlidesAux_congr :
    ∀ {f g : Nat} {cs : List Char}, cs.length ≤ f → cs.length ≤ g →
      splitSlidesAux f cs = splitSlidesAux g cs := by
  intro f
  induction f with
  | zero =>
    intro g cs hf _
    have : cs = [] := List.length_eq_zero.mp (Nat.le_zero.mp hf)
    subst this
    cases g with
    | zero => rfl
    | succ g' => rfl
  | succ f ih =>
    intro g cs hf hg
    cases cs with
    | nil =>
      cases g with
      | zero => rfl
      | succ g' => rfl
    | cons c cs' =>
      cases g with
      | zero => simp at hg
      | succ g' =>
        simp only [List.length_cons] at hf hg
        show splitSlidesAux (f + 1) (c :: cs') = splitSlidesAux (g' + 1) (c :: cs')
        simp only [splitSlidesAux]
        cases hsc : scanSplit (c :: cs') with
        | none => rfl
        | some v =>
          obtain ⟨pre, ds, rest⟩ := v
          have hlen := scanSplit_length hsc
          simp only [List.length_cons] at hlen
          have := @ih g' rest (by omega) (by omega)
          simp only [this]

theorem splitSlides_of_some {cs pre ds rest : List Char}
    (h : scanSplit cs = some (pre, ds, rest)) :
    splitSlides cs = (pre, (toNatD ds, (splitSlides rest).1) :: (splitSlides rest).2) := by
  unfold splitSlides
  cases cs with
  | nil => simp [scanSplit] at h
  | cons c cs' =>
    show splitSlidesAux (cs'.length + 1) (c :: cs') = _
    simp only [splitSlidesAux, h]
    have hlen := scanSplit_length h
    simp only [List.length_cons] at hlen
    have := @splitSlidesAux_congr cs'.length rest.length rest
      (by omega) le_rfl
    simp only [this]

theorem blankLineAt_not_nl {c : Char} {cs : List Char} (hc : ¬ c = '\n') :
    blankLineAt (c :: cs) = false := by
  unfold blankLineAt
  split
  · next rest heq =>
    injection heq with h1 _
    exact absurd h1 hc
  · rfl

theorem blankThenSlide_not_nl {c : Char} {cs : List Char} (hc : ¬ c = '\n') :
    blankThenSlide (c :: cs) = false := by
  unfold blankThenSlide
  split
  · next rest heq =>
    injection heq with h1 _
    exact absurd h1 hc
  · rfl

theorem markerAfterNl_not_nl {c : Char} {cs : List Char} (hc : ¬ c = '\n') :
    markerAfterNl (c :: cs) = false := by
  unfold markerAfterNl
  split
  · next rest heq =>
    injection heq with h1 _
    exact absurd h1 hc
  · rfl

theorem removeTrailSlide_id {cs : List Char} (h : ∀ c ∈ cs, ¬ c = '\n') :
    removeTrailSlide cs = cs := by
  induction cs with
  | nil => rfl
  | cons c t ih =>
    unfold removeTrailSlide
    rw [blankThenSlide_not_nl (h c (List.mem_cons_self _ _))]
    simp only [Bool.false_eq_true, if_false]
    rw [ih (fun x hx => h x (List.mem_cons_of_mem _ hx))]

theorem natDec_ne_nil (n : Nat) : natDec n ≠ [] := by
  unfold natDec
  simp only [natDecAux]
  split <;> simp

theorem matchCI_cons_ne {p : Char} {ps : List Char} {c : Char} {cs : List Char}
    (h : ¬ c.toLower = p) : matchCI (p :: ps) (c :: cs) = none := by
  simp [matchCI, h]

theorem tryH1_none_of {u : List Char} (h : matchCI "heading:".data u = none) :
    tryH1 u = none := by
  unfold tryH1
  rw [h]

theorem tryH2_none_of {u : List Char} (h : matchCI "heading:".data u = none) :
    tryH2 u = none := by
  unfold tryH2
  rw [h]

theorem tryE1_none_of {u : List Char} (h : matchCI "explanation:".data u = none) :
    tryE1 u = none := by
  unfold tryE1
  rw [h]

theorem findFirst_cons_none {f : List Char → Option (List Char)} {c : Char}
    {cs : List Char} (h : f (c :: cs) = none) :
    findFirst f (c :: cs) = findFirst f cs := by
  simp [findFirst, h]

theorem findFirst_cons_some {f : List Char → Option (List Char)} {c : Char}
    {cs r : List Char} (h : f (c :: cs) = some r) :
    findFirst f (c :: cs) = some r := by
  simp [findFirst, h]

theorem nlInWsRun_cons_false {c : Char} {x : List Char} (h1 : ¬ c = '\n')
    (h2 : isSpc c = false) : nlInWsRun (c :: x) = false := by
  unfold nlInWsRun
  rw [if_neg h1, h2]
  simp

theorem startsCI_false_cross {pat H r u : List Char}
    (hu : u <:+ H) (hnl : ('\n' : Char) ∉ pat)
    (hno : containsL pat (lowerL H) = false) :
    startsCI pat (u ++ '\n' :: r) = false := by
  unfold startsCI
  cases hm : matchCI pat (u ++ '\n' :: r) with
  | none => rfl
  | some t =>
    exfalso
    obtain ⟨pre, hpre, hlow⟩ := matchCI_sound hm
    have hpre2 : pre <+: u ++ '\n' :: r := ⟨t, hpre.symm⟩
    by_cases hl : pre.length ≤ u.length
    · have h1 : pre <+: u := (List.isPrefix_append_of_length hl).mp hpre2
      rw [containsL_false_iff] at hno
      apply hno
      rw [← hlow]
      apply infix_map
      obtain ⟨w1, hw1⟩ := h1
      obtain ⟨w2, hw2⟩ := hu
      exact ⟨w2, w1, by rw [List.append_assoc, hw1, hw2]⟩
    · push_neg at hl
      exact prefix_cross_nl hpre2 hl hnl hlow

theorem matchMarker_exact {s w d rest : List Char} (hs : lowerL s = "slide".data)
    (hw : w ≠ []) (hwsp : ∀ c ∈ w, isSpc c = true)
    (hd : d ≠ []) (hdig : ∀ c ∈ d, isDigitC c = true)
    (hrest : ∀ c, rest.head? = some c → isDigitC c = false) :
    matchMarker (s ++ (w ++ (d ++ rest))) = some (d, rest) := by
  unfold matchMarker
  rw [matchCI_complete hs]
  simp only
  have hd0 : ∀ c, d.head? = some c → isSpc c = false := by
    intro c hc
    cases d with
    | nil => simp at hc
    | cons d0 d' =>
      simp only [List.head?_cons, Option.some.injEq] at hc
      rw [← hc]
      exact isSpc_false_of_digit (hdig d0 (List.mem_cons_self _ _))
  have htw : (w ++ (d ++ rest)).takeWhile isSpc = w := by
    rw [takeWhile_all_append hwsp]
    cases d with
    | nil => exact absurd rfl hd
    | cons d0 d' =>
      simp [List.takeWhile_cons, isSpc_false_of_digit (hdig d0 (List.mem_cons_self _ _))]
  have hdw : (w ++ (d ++ rest)).dropWhile isSpc = d ++ rest := by
    rw [dropWhile_all_append hwsp]
    cases d with
    | nil => exact absurd rfl hd
    | cons d0 d' =>
      simp [List.dropWhile_cons, isSpc_false_of_digit (hdig d0 (List.mem_cons_self _ _))]
  rw [htw, hdw]
  have hwe : w.isEmpty = false := by
    cases w with
    | nil => exact absurd rfl hw
    | cons _ _ => rfl
  rw [hwe]
  simp only [Bool.false_eq_true, if_false]
  have htd : (d ++ rest).takeWhile isDigitC = d := by
    rw [takeWhile_all_append hdig]
    cases rest with
    | nil => simp
    | cons r0 r' => simp [List.takeWhile_cons, hrest r0 rfl]
  have hdd : (d ++ rest).dropWhile isDigitC = rest := by
    rw [dropWhile_all_append hdig]
    cases rest with
    | nil => rfl
    | cons r0 r' => simp [List.dropWhile_cons, hrest r0 rfl]
  rw [htd, hdd]
  have hde : d.isEmpty = false := by
    cases d with
    | nil => exact absurd rfl hd
    | cons _ _ => rfl
  rw [hde]
  simp

theorem scanSplit_cons_marker {c : Char} {cs ds rest : List Char}
    (h : matchMarker (c :: cs) = some (ds, rest)) :
    scanSplit (c :: cs) = some ([], ds, rest) := by
  simp [scanSplit, h]

theorem blockBody_append (h e : String) (z1 z2 : List Char) :
    blockBody h e (z1 ++ z2) = blockBody h e z1 ++ z2 := by
  simp [blockBody, List.append_assoc]

theorem lowerL_blockBody (h e : String) (z : List Char) :
    lowerL (blockBody h e z) =
      "\nheading: ".data ++ (lowerL h.data ++
        ("\nexplanation: ".data ++ (lowerL e.data ++ lowerL z))) := by
  have h1 : List.map Char.toLower "Heading: ".data = "heading: ".data := by decide
  have h2 : List.map Char.toLower "Explanation: ".data = "explanation: ".data := by decide
  show List.map Char.toLower
      ('\n' :: ("Heading: ".data ++ (h.data ++
        ('\n' :: ("Explanation: ".data ++ (e.data ++ z)))))) =
    "\nheading: ".data ++ (List.map Char.toLower h.data ++
      ("\nexplanation: ".data ++
        (List.map Char.toLower e.data ++ List.map Char.toLower z)))
  rw [List.map_cons, List.map_append, h1, List.map_append, List.map_cons,
    List.map_append, h2, List.map_append]
  rfl

theorem mkTwoSlideText_data (n1 : Nat) (h1 e1 : String) (n2 : Nat) (h2 e2 : String) :
    (mkTwoSlideText n1 h1 e1 n2 h2 e2).data =
      "Slide ".data ++ (natDec n1 ++ (blockBody h1 e1 ['\n'] ++
        ("Slide ".data ++ (natDec n2 ++ blockBody h2 e2 [])))) := by
  unfold mkTwoSlideText blockBody natDecS
  simp only [String.data_append]
  simp [List.append_assoc]

theorem lowerL_cs1 (h e : String) (z : List Char) :
    lowerL ("eading:".data ++ (' ' :: (h.data ++
      ('\n' :: ("Explanation: ".data ++ (e.data ++ z)))))) =
    "eading: ".data ++ (lowerL h.data ++
      ("\nexplanation: ".data ++ (lowerL e.data ++ lowerL z))) := by
  have he1 : List.map Char.toLower "eading:".data = "eading:".data := by decide
  have h2 : List.map Char.toLower "Explanation: ".data = "explanation: ".data := by decide
  show List.map Char.toLower ("eading:".data ++ (' ' :: (h.data ++
      ('\n' :: ("Explanation: ".data ++ (e.data ++ z)))))) =
    "eading: ".data ++ (List.map Char.toLower h.data ++
      ("\nexplanation: ".data ++
        (List.map Char.toLower e.data ++ List.map Char.toLower z)))
  rw [List.map_append, he1, List.map_cons, List.map_append, List.map_cons,
    List.map_append, h2, List.map_append]
  rfl

theorem lowerL_headpart (h : String) :
    lowerL ('\n' :: ("Heading: ".data ++ (h.data ++ ['\n']))) =
      "\nheading: ".data ++ (lowerL h.data ++ ['\n']) := by
  have h1 : List.map Char.toLower "Heading: ".data = "heading: ".data := by decide
  show List.map Char.toLower ('\n' :: ("Heading: ".data ++ (h.data ++ ['\n']))) =
    "\nheading: ".data ++ (List.map Char.toLower h.data ++ ['\n'])
  rw [List.map_cons, List.map_append, h1, List.map_append]
  rfl

theorem blockBody_getLast (h e : String) :
    (blockBody h e ['\n']).getLast? = some '\n' := by
  have hsh : blockBody h e ['\n'] =
      ('\n' :: ("Heading: ".data ++ (h.data ++
        ('\n' :: ("Explanation: ".data ++ e.data))))) ++ ['\n'] := by
    simp [blockBody, List.append_assoc]
  rw [hsh, List.getLast?_concat]

theorem headpart_getLast (h : String) :
    ('\n' :: ("Heading: ".data ++ (h.data ++ ['\n']))).getLast? = some '\n' := by
  have hsh : ('\n' :: ("Heading: ".data ++ (h.data ++ ['\n']))) =
      ('\n' :: ("Heading: ".data ++ h.data)) ++ ['\n'] := by
    simp [List.append_assoc]
  rw [hsh, List.getLast?_concat]

theorem no_slide_block {h e : String} {z : List Char}
    (hh : goodField h = true) (he : goodField e = true) (hz : z = [] ∨ z = ['\n']) :
    containsL "slide".data (lowerL (blockBody h e z)) = false := by
  obtain ⟨-, -, -, -, hs1, -, -, -, -⟩ := goodField_spec hh
  obtain ⟨-, -, -, -, hs2, -, -, -, -⟩ := goodField_spec he
  rw [lowerL_blockBody]
  apply containsL_append_false
  · decide
  · apply containsL_append_false
    · exact hs1
    · apply containsL_append_false
      · decide
      · apply containsL_append_false
        · exact hs2
        · rcases hz with rfl | rfl <;> decide
        · intro t1 t2 ht hn1 hn2 hsa hpb
          rcases hz with rfl | rfl
          · exact hn2 (List.prefix_nil.mp hpb)
          · exact straddle_nl ht hn2 hpb (by decide)
      · intro t1 t2 ht hn1 hn2 hsa hpb
        exact straddle_fixed ht hn1 hn2 hsa (by decide)
    · intro t1 t2 ht hn1 hn2 hsa hpb
      exact straddle_nl ht hn2 hpb (by decide)
  · intro t1 t2 ht hn1 hn2 hsa hpb
    exact straddle_fixed ht hn1 hn2 hsa (by decide)

theorem no_heading_cs1 {h e : String} {z : List Char}
    (hh : goodField h = true) (he : goodField e = true) (hz : z = [] ∨ z = ['\n']) :
    containsL "heading:".data (lowerL ("eading:".data ++ (' ' :: (h.data ++
      ('\n' :: ("Explanation: ".data ++ (e.data ++ z))))))) = false := by
  obtain ⟨-, -, -, -, -, hx1, -, -, -⟩ := goodField_spec hh
  obtain ⟨-, -, -, -, -, hx2, -, -, -⟩ := goodField_spec he
  rw [lowerL_cs1]
  apply containsL_append_false
  · decide
  · apply containsL_append_false
    · exact hx1
    · apply containsL_append_false
      · decide
      · apply containsL_append_false
        · exact hx2
        · rcases hz with rfl | rfl <;> decide
        · intro t1 t2 ht hn1 hn2 hsa hpb
          rcases hz with rfl | rfl
          · exact hn2 (List.prefix_nil.mp hpb)
          · exact straddle_nl ht hn2 hpb (by decide)
      · intro t1 t2 ht hn1 hn2 hsa hpb
        exact straddle_fixed ht hn1 hn2 hsa (by decide)
    · intro t1 t2 ht hn1 hn2 hsa hpb
      exact straddle_nl ht hn2 hpb (by decide)
  · intro t1 t2 ht hn1 hn2 hsa hpb
    exact straddle_fixed ht hn1 hn2 hsa (by decide)

theorem no_explanation_headpart {h : String} (hh : goodField h = true) :
    containsL "explanation:".data
      (lowerL ('\n' :: ("Heading: ".data ++ (h.data ++ ['\n'])))) = false := by
  obtain ⟨-, -, -, -, -, -, hx3, -, -⟩ := goodField_spec hh
  rw [lowerL_headpart]
  apply containsL_append_false
  · decide
  · apply containsL_append_false
    · exact hx3
    · decide
    · intro t1 t2 ht hn1 hn2 hsa hpb
      exact straddle_nl ht hn2 hpb (by decide)
  · intro t1 t2 ht hn1 hn2 hsa hpb
    exact straddle_fixed ht hn1 hn2 hsa (by decide)

theorem lazyNonNlGo_none_along {h : String} {rest2 : List Char}
    (hno : containsL "explanation:".data (lowerL h.data) = false)
    (hnl : ∀ c ∈ h.data, ¬ c = '\n')
    (hr : nlInWsRun rest2 = false) :
    ∀ u, u <:+ h.data → ∀ acc, lazyNonNlGo acc (u ++ '\n' :: rest2) = none := by
  intro u
  induction u with
  | nil => intro _ acc; rfl
  | cons c u' ih =>
    intro hu acc
    have hcmem : c ∈ h.data := by
      obtain ⟨w, hw⟩ := hu
      rw [← hw]
      exact List.mem_append.mpr (Or.inr (List.mem_cons_self _ _))
    have hu' : u' <:+ h.data := by
      obtain ⟨w, hw⟩ := hu
      exact ⟨w ++ [c], by rw [← hw]; simp⟩
    have hcnl : ¬ c = '\n' := hnl c hcmem
    show lazyNonNlGo acc (c :: (u' ++ '\n' :: rest2)) = none
    simp only [lazyNonNlGo]
    rw [if_neg hcnl]
    have haltF : altH1 (u' ++ '\n' :: rest2) = false := by
      unfold altH1
      have hb : blankLineAt (u' ++ '\n' :: rest2) = false := by
        cases hu0 : u' with
        | nil =>
          show blankLineAt ('\n' :: rest2) = false
          unfold blankLineAt
          exact hr
        | cons d u'' =>
          apply blankLineAt_not_nl
          apply hnl
          obtain ⟨w, hw⟩ := hu'
          rw [← hw, hu0]
          exact List.mem_append.mpr (Or.inr (List.mem_cons_self _ _))
      have hsc : startsCI "explanation:".data (u' ++ '\n' :: rest2) = false :=
        startsCI_false_cross hu' (by decide) hno
      rw [hb, hsc]
      rfl
    rw [haltF]
    simp only [Bool.false_eq_true, if_false]
    exact ih hu' (acc ++ [c])

theorem h1Body_label {h : String} {rest2 : List Char}
    (hne : h.data ≠ []) (hhd : ∀ c, h.data.head? = some c → isSpc c = false)
    (hno : containsL "explanation:".data (lowerL h.data) = false)
    (hnl : ∀ c ∈ h.data, ¬ c = '\n')
    (hr : nlInWsRun rest2 = false) :
    h1Body (' ' :: (h.data ++ '\n' :: rest2)) = none := by
  have hinner : h1Body (h.data ++ '\n' :: rest2) = none := by
    cases hd : h.data with
    | nil => exact absurd hd hne
    | cons c0 hrest =>
      have hc0 : isSpc c0 = false := by
        apply hhd
        rw [hd]
        rfl
      show h1Body (c0 :: (hrest ++ '\n' :: rest2)) = none
      simp only [h1Body]
      rw [hc0]
      simp only [Bool.false_eq_true, if_false]
      show lazyNonNlGo [] ((c0 :: hrest) ++ '\n' :: rest2) = none
      rw [← hd]
      exact lazyNonNlGo_none_along hno hnl hr h.data ⟨[], rfl⟩ []
  show h1Body (' ' :: (h.data ++ '\n' :: rest2)) = none
  simp only [h1Body]
  have hsp : isSpc ' ' = true := rfl
  rw [hsp]
  simp only [if_true, hinner]
  show lazyNonNlGo [] (' ' :: (h.data ++ '\n' :: rest2)) = none
  simp only [lazyNonNlGo]
  rw [if_neg (by decide : ¬ (' ' : Char) = '\n')]
  have haltF : altH1 (h.data ++ '\n' :: rest2) = false := by
    unfold altH1
    have hb : blankLineAt (h.data ++ '\n' :: rest2) = false := by
      cases hd : h.data with
      | nil => exact absurd hd hne
      | cons c0 hrest =>
        apply blankLineAt_not_nl
        apply hnl
        rw [hd]
        exact List.mem_cons_self _ _
    have hsc : startsCI "explanation:".data (h.data ++ '\n' :: rest2) = false :=
      startsCI_false_cross ⟨[], rfl⟩ (by decide) hno
    rw [hb, hsc]
    rfl
  rw [haltF]
  simp only [Bool.false_eq_true, if_false]
  exact lazyNonNlGo_none_along hno hnl hr h.data ⟨[], rfl⟩ [' ']

theorem h2Body_label {h : String} {rest2 : List Char}
    (hne : h.data ≠ []) (hhd : ∀ c, h.data.head? = some c → isSpc c = false)
    (hnl : ∀ c ∈ h.data, ¬ c = '\n') :
    h2Body (' ' :: (h.data ++ '\n' :: rest2)) = some h.data := by
  have hinner : h2Body (h.data ++ '\n' :: rest2) = some h.data := by
    cases hd : h.data with
    | nil => exact absurd hd hne
    | cons c0 hrest =>
      have hc0 : isSpc c0 = false := by
        apply hhd
        rw [hd]
        rfl
      show h2Body (c0 :: (hrest ++ '\n' :: rest2)) = some (c0 :: hrest)
      simp only [h2Body]
      rw [hc0]
      simp only [Bool.false_eq_true, if_false]
      show greedyNonNl ((c0 :: hrest) ++ '\n' :: rest2) = some (c0 :: hrest)
      unfold greedyNonNl
      have htk : ((c0 :: hrest) ++ '\n' :: rest2).takeWhile
          (fun c => !(c = '\n' : Bool)) = c0 :: hrest := by
        rw [takeWhile_all_append]
        · simp [List.takeWhile_cons]
        · intro c hc
          have : ¬ c = '\n' := by
            apply hnl
            rw [hd]
            exact hc
          simp [this]
      rw [htk]
      simp
  show h2Body (' ' :: (h.data ++ '\n' :: rest2)) = some h.data
  simp only [h2Body]
  have hsp : isSpc ' ' = true := rfl
  rw [hsp]
  simp only [if_true, hinner]

theorem lazyAnyLkGo_e {e : String} {z : List Char}
    (hnl : ∀ c ∈ e.data, ¬ c = '\n') (hz : z = [] ∨ z = ['\n']) :
    ∀ u, u <:+ e.data → ∀ acc, u ++ z ≠ [] →
      lazyAnyLkGo la1 acc (u ++ z) = some (acc ++ (u ++ z)) := by
  intro u
  induction u with
  | nil =>
    intro _ acc hne
    rcases hz with rfl | rfl
    · exact absurd rfl hne
    · show lazyAnyLkGo la1 acc ('\n' :: []) = some (acc ++ ('\n' :: []))
      simp only [lazyAnyLkGo]
      have : la1 [] = true := rfl
      rw [this]
      simp
  | cons c u' ih =>
    intro hu acc _
    have hu' : u' <:+ e.data := by
      obtain ⟨w, hw⟩ := hu
      exact ⟨w ++ [c], by rw [← hw]; simp⟩
    show lazyAnyLkGo la1 acc (c :: (u' ++ z)) = some (acc ++ (c :: (u' ++ z)))
    simp only [lazyAnyLkGo]
    by_cases hcase : u' ++ z = []
    · rw [hcase]
      have : la1 [] = true := rfl
      rw [this]
      simp
    · have hla : la1 (u' ++ z) = false := by
        cases hu0 : u' with
        | nil =>
          rcases hz with rfl | rfl
          · rw [hu0] at hcase
            exact absurd rfl hcase
          · show la1 ([] ++ ['\n']) = false
            decide
        | cons d u'' =>
          have hd : d ∈ e.data := by
            obtain ⟨w, hw⟩ := hu'
            rw [← hw, hu0]
            exact List.mem_append.mpr (Or.inr (List.mem_cons_self _ _))
          show la1 (d :: (u'' ++ z)) = false
          unfold la1
          rw [markerAfterNl_not_nl (hnl d hd)]
          simp
      rw [hla]
      simp only [Bool.false_eq_true, if_false]
      have := ih hu' (acc ++ [c]) hcase
      rw [this]
      simp

theorem eBody_la1_label {e : String} {z : List Char} (hne : e.data ≠ [])
    (hhd : ∀ c, e.data.head? = some c → isSpc c = false)
    (hnl : ∀ c ∈ e.data, ¬ c = '\n') (hz : z = [] ∨ z = ['\n']) :
    eBody la1 (' ' :: (e.data ++ z)) = some (e.data ++ z) := by
  have hinner : eBody la1 (e.data ++ z) = some (e.data ++ z) := by
    cases hd : e.data with
    | nil => exact absurd hd hne
    | cons c0 er =>
      have hc0 : isSpc c0 = false := by
        apply hhd
        rw [hd]
        rfl
      show eBody la1 (c0 :: (er ++ z)) = some ((c0 :: er) ++ z)
      simp only [eBody]
      rw [hc0]
      simp only [Bool.false_eq_true, if_false]
      show lazyAnyLkGo la1 [] ((c0 :: er) ++ z) = some ((c0 :: er) ++ z)
      rw [← hd]
      have := lazyAnyLkGo_e hnl hz e.data ⟨[], rfl⟩ []
        (by rw [hd]; simp)
      rw [this]
      simp
  show eBody la1 (' ' :: (e.data ++ z)) = some (e.data ++ z)
  simp only [eBody]
  have hsp : isSpc ' ' = true := rfl
  rw [hsp]
  simp only [if_true, hinner]

theorem extractHeading_block {h e : String} {z : List Char}
    (hh : goodField h = true) (he : goodField e = true) (hz : z = [] ∨ z = ['\n']) :
    extractHeading (blockBody h e z) = h.data := by
  obtain ⟨hne, hnl, hhd, hlt, -, -, hel, hst, hun⟩ := goodField_spec hh
  have hblock : blockBody h e z =
      '\n' :: 'H' :: ("eading:".data ++ (' ' :: (h.data ++ '\n' ::
        ("Explanation: ".data ++ (e.data ++ z))))) := rfl
  have hH1 : findFirst tryH1 (blockBody h e z) = none := by
    rw [hblock]
    have h0 : tryH1 ('\n' :: 'H' :: ("eading:".data ++ (' ' :: (h.data ++ '\n' ::
        ("Explanation: ".data ++ (e.data ++ z)))))) = none :=
      tryH1_none_of (matchCI_cons_ne (by decide))
    rw [findFirst_cons_none h0]
    have h1 : tryH1 ('H' :: ("eading:".data ++ (' ' :: (h.data ++ '\n' ::
        ("Explanation: ".data ++ (e.data ++ z)))))) = none := by
      show tryH1 ("Heading:".data ++ (' ' :: (h.data ++ '\n' ::
        ("Explanation: ".data ++ (e.data ++ z))))) = none
      unfold tryH1
      rw [matchCI_complete (by decide : lowerL "Heading:".data = "heading:".data)]
      exact h1Body_label hne hhd hel hnl (nlInWsRun_cons_false (by decide) (by decide))
    rw [findFirst_cons_none h1]
    apply findFirst_none_of
    intro u hu
    exact tryH1_none_of (matchCI_none_of_noCI hu (no_heading_cs1 hh he hz))
  have hH2 : findFirst tryH2 (blockBody h e z) = some h.data := by
    rw [hblock]
    have h0 : tryH2 ('\n' :: 'H' :: ("eading:".data ++ (' ' :: (h.data ++ '\n' ::
        ("Explanation: ".data ++ (e.data ++ z)))))) = none :=
      tryH2_none_of (matchCI_cons_ne (by decide))
    rw [findFirst_cons_none h0]
    apply findFirst_cons_some
    show tryH2 ("Heading:".data ++ (' ' :: (h.data ++ '\n' ::
      ("Explanation: ".data ++ (e.data ++ z))))) = some h.data
    unfold tryH2
    rw [matchCI_complete (by decide : lowerL "Heading:".data = "heading:".data)]
    exact h2Body_label hne hhd hnl
  unfold extractHeading
  rw [hH1, hH2]
  simp only
  rw [jsTrimL_id hhd hlt, stripEmphasis_id hst hun]

theorem extractExplanation_block {h e : String} {z : List Char}
    (hh : goodField h = true) (he : goodField e = true) (hz : z = [] ∨ z = ['\n']) :
    extractExplanation (blockBody h e z) = e.data := by
  obtain ⟨hneE, hnlE, hhdE, hltE, -, -, -, hstE, hunE⟩ := goodField_spec he
  have hfind : findFirst tryE1 (blockBody h e z) = some (e.data ++ z) := by
    have hdecomp : blockBody h e z =
        ('\n' :: ("Heading: ".data ++ (h.data ++ ['\n']))) ++
          ("Explanation:".data ++ (' ' :: (e.data ++ z))) := by
      simp [blockBody, List.append_assoc]
    rw [hdecomp]
    have hskip : ∀ a', a' <:+ ('\n' :: ("Heading: ".data ++ (h.data ++ ['\n']))) →
        a' ≠ [] →
        tryE1 (a' ++ ("Explanation:".data ++ (' ' :: (e.data ++ z)))) = none := by
      intro a' ha' hane
      exact tryE1_none_of (matchCI_none_at_boundary ha' hane (headpart_getLast h)
        (by decide) (no_explanation_headpart hh))
    rw [findFirst_append hskip]
    apply findFirst_cons_some
    show tryE1 ("Explanation:".data ++ (' ' :: (e.data ++ z))) = some (e.data ++ z)
    unfold tryE1
    rw [matchCI_complete (by decide : lowerL "Explanation:".data = "explanation:".data)]
    exact eBody_la1_label hneE hhdE hnlE hz
  have hproc : procExpl (e.data ++ z) = e.data := by
    rcases hz with rfl | rfl
    · show procExpl (e.data ++ []) = e.data
      rw [List.append_nil]
      unfold procExpl
      rw [jsTrimL_id hhdE hltE, removeTrailSlide_id hnlE, jsTrimL_id hhdE hltE,
        stripEmphasis_id hstE hunE]
    · unfold procExpl
      rw [jsTrimL_append_nl hneE hhdE hltE, removeTrailSlide_id hnlE,
        jsTrimL_id hhdE hltE, stripEmphasis_id hstE hunE]
  have hie : e.data.isEmpty = false := by
    cases hd : e.data with
    | nil => exact absurd hd hneE
    | cons _ _ => rfl
  unfold extractExplanation
  rw [hfind]
  simp only [hproc, hie]
  simp

theorem splitSlides_two (n1 n2 : Nat) (h1 e1 h2 e2 : String)
    (hh1 : goodField h1 = true) (he1 : goodField e1 = true)
    (hh2 : goodField h2 = true) (he2 : goodField e2 = true) :
    splitSlides (mkTwoSlideText n1 h1 e1 n2 h2 e2).data =
      ([], [(n1, blockBody h1 e1 ['\n']), (n2, blockBody h2 e2 [])]) := by
  have hwsp : ∀ c ∈ ([' '] : List Char), isSpc c = true := by
    intro c hc
    simp only [List.mem_singleton] at hc
    subst hc
    rfl
  have hsc1 : scanSplit (mkTwoSlideText n1 h1 e1 n2 h2 e2).data =
      some ([], natDec n1, blockBody h1 e1 ['\n'] ++
        ("Slide ".data ++ (natDec n2 ++ blockBody h2 e2 []))) := by
    rw [mkTwoSlideText_data]
    apply scanSplit_cons_marker
    show matchMarker ("Slide".data ++ ([' '] ++ (natDec n1 ++
        (blockBody h1 e1 ['\n'] ++ ("Slide ".data ++ (natDec n2 ++ blockBody h2 e2 [])))))) =
      some (natDec n1, blockBody h1 e1 ['\n'] ++
        ("Slide ".data ++ (natDec n2 ++ blockBody h2 e2 [])))
    apply matchMarker_exact (by decide) (by simp) hwsp (natDec_ne_nil n1)
      (fun c hc => natDec_digits hc)
    intro c hc
    have : c = '\n' := by
      have hrfl : (blockBody h1 e1 ['\n'] ++
          ("Slide ".data ++ (natDec n2 ++ blockBody h2 e2 []))).head? = some '\n' := rfl
      rw [hrfl] at hc
      exact (Option.some.injEq _ _ ▸ hc).symm
    subst this
    decide
  have hskip : ∀ a', a' <:+ blockBody h1 e1 ['\n'] → a' ≠ [] →
      matchMarker (a' ++ ("Slide ".data ++ (natDec n2 ++ blockBody h2 e2 []))) = none := by
    intro a' ha' hane
    exact matchMarker_none_of_matchCI (matchCI_none_at_boundary ha' hane
      (blockBody_getLast h1 e1) (by decide) (no_slide_block hh1 he1 (Or.inr rfl)))
  have hsc2 : scanSplit (blockBody h1 e1 ['\n'] ++
      ("Slide ".data ++ (natDec n2 ++ blockBody h2 e2 []))) =
      some (blockBody h1 e1 ['\n'], natDec n2, blockBody h2 e2 []) := by
    rw [scanSplit_append_sk hskip]
    have hinner : scanSplit ("Slide ".data ++ (natDec n2 ++ blockBody h2 e2 [])) =
        some ([], natDec n2, blockBody h2 e2 []) := by
      apply scanSplit_cons_marker
      show matchMarker ("Slide".data ++ ([' '] ++ (natDec n2 ++ blockBody h2 e2 []))) =
        some (natDec n2, blockBody h2 e2 [])
      apply matchMarker_exact (by decide) (by simp) hwsp (natDec_ne_nil n2)
        (fun c hc => natDec_digits hc)
      intro c hc
      have : c = '\n' := by
        have hrfl : (blockBody h2 e2 []).head? = some '\n' := rfl
        rw [hrfl] at hc
        exact (Option.some.injEq _ _ ▸ hc).symm
      subst this
      decide
    rw [hinner]
    simp
  have hsc3 : scanSplit (blockBody h2 e2 []) = none := by
    apply scanSplit_none_of
    intro u hu
    exact matchMarker_none_of_matchCI (matchCI_none_of_noCI hu
      (no_slide_block hh2 he2 (Or.inl rfl)))
  rw [splitSlides_of_some hsc1, splitSlides_of_some hsc2, splitSlides_of_none hsc3]
  simp [toNatD_natDec]

/-- C4: on a text consisting of exactly two well-formed
Slide N / Heading: H / Explanation: E blocks whose fields are nonempty,
single-line, trimmed, and free of slide words, field labels and emphasis
markers, parseSlideContent returns exactly two records whose slideNumber,
heading and explanation match the inputs verbatim; the numbers n1 and n2 are
the integers captured from the markers, attached unchanged — also when
duplicated or out of order — and the records appear in source-text order. -/
theorem parse_two_blocks (n1 n2 : Nat) (h1 e1 h2 e2 : String)
    (hh1 : goodField h1 = true) (he1 : goodField e1 = true)
    (hh2 : goodField h2 = true) (he2 : goodField e2 = true) :
    parseSlideContent (mkTwoSlideText n1 h1 e1 n2 h2 e2) =
      [⟨n1, h1, e1⟩, ⟨n2, h2, e2⟩] := by
  unfold parseSlideContent
  rw [splitSlides_two n1 n2 h1 e1 h2 e2 hh1 he1 hh2 he2]
  have hH1 := extractHeading_block hh1 he1 (Or.inr rfl)
  have hE1 := extractExplanation_block hh1 he1 (Or.inr rfl)
  have hH2 := extractHeading_block hh2 he2 (Or.inl rfl)
  have hE2 := extractExplanation_block hh2 he2 (Or.inl rfl)
  obtain ⟨hne1, -, -, -, -, -, -, -, -⟩ := goodField_spec hh1
  obtain ⟨hne1e, -, -, -, -, -, -, -, -⟩ := goodField_spec he1
  obtain ⟨hne2, -, -, -, -, -, -, -, -⟩ := goodField_spec hh2
  obtain ⟨hne2e, -, -, -, -, -, -, -, -⟩ := goodField_spec he2
  have b1 : h1.data.isEmpty = false := by
    cases hd : h1.data with
    | nil => exact absurd hd hne1
    | cons _ _ => rfl
  have b2 : e1.data.isEmpty = false := by
    cases hd : e1.data with
    | nil => exact absurd hd hne1e
    | cons _ _ => rfl
  have b3 : h2.data.isEmpty = false := by
    cases hd : h2.data with
    | nil => exact absurd hd hne2
    | cons _ _ => rfl
  have b4 : e2.data.isEmpty = false := by
    cases hd : e2.data with
    | nil => exact absurd hd hne2e
    | cons _ _ => rfl
  simp only [parseBlocks, hH1, hE1, hH2, hE2, b1, b2, b3, b4]
  simp [strMk_data]

theorem parse_two_blocks_witness :
    goodField "Cats" = true ∧ goodField "Independent." = true ∧
    goodField "Dogs" = true ∧ goodField "Loyal." = true ∧
    parseSlideContent (mkTwoSlideText 1 "Cats" "Independent." 2 "Dogs" "Loyal.") =
      [⟨1, "Cats", "Independent."⟩, ⟨2, "Dogs", "Loyal."⟩] :=
  ⟨by decide, by decide, by decide, by decide,
    parse_two_blocks 1 2 "Cats" "Independent." "Dogs" "Loyal."
      (by decide) (by decide) (by decide) (by decide)⟩

end Carousel
